import Mathlib

/-!
Verification development for the job-control execution engine of the
marcel shell (src/execute.c, src/signals.c, src/ds/cmd.c).

The C sources are shallowly embedded: the shell's descriptor space, pid
allocation, process groups and the outside OS behaviour (which `open`,
`fork`, `chdir`, `execvp` calls succeed) are made explicit as state
records and oracles; machine integers are modelled as `Nat`/`Int`.
Headers absent from src/ (`proc.h`, `marcel.h`, `children.h`, the hash
table) are modelled from the spec where noted.
-/

namespace Marcel

/-- Kind tag of a builtin binding.  The C `builtin` struct in execute.c
carries `b->type = CMD`; the spec notes room for future non-command
binding kinds, modelled here by the extra constructor `ALIAS` so that the
command-kind filter is not vacuous. -/
inductive BType where
  | CMD : BType
  | ALIAS : BType
  deriving DecidableEq

/-- External world visible to builtins and to error reporting: the file
system behaviour of `chdir`, the current/previous working directory, the
`HOME` environment variable, the process-wide `exit_code`, whether the
shell process has called `exit`, the bytes written by `write`, and the
diagnostics printed by `Stopif`. -/
structure World where
  chdirFails : String → Bool
  cwd : String
  home : String
  oldpwd : String
  exit_code : Int
  exited : Option Int
  writes : List (Nat × String)
  errs : List String

/-- One pipeline stage.  Modelled from the spec (§3) and the uses in
execute.c: `proc.h` is absent from src/.  `fds` is the 3-slot descriptor
table initialised to `{0,1,2}` by `new_cmd` (ds/cmd.c). -/
structure MProc where
  argv : List String
  env : List (String × String)
  fds : Fin 3 → Nat
  pid : Nat
  completed : Bool
  exit_code : Int

/-- The default descriptor table `{0,1,2}` installed by `new_cmd`. -/
def defFds : Fin 3 → Nat := fun i => i.val

/-- A builtin binding: kind tag plus the function invoked in-process.
Builtin bodies touch the external world, so they take and return a
`World`. -/
structure Builtin where
  type : BType
  cmd : MProc → World → Int × World

/-- Predicate `filter_command` from execute.c: only command-kind bindings
match during pipeline launch. -/
def filter_command (b : Builtin) : Bool := b.type = BType.CMD

/-- Lookup in the builtin table filtered by a capability predicate.
Modelled from the spec: the hash table lives outside src/ and is consumed
only through its interface `find_node(key, filter, table)`; it is
modelled as an association list searched in order. -/
def find_node (key : String) (filt : Builtin → Bool) :
    List (String × Builtin) → Option Builtin
  | [] => none
  | kv :: rest =>
    if kv.1 = key ∧ filt kv.2 then some kv.2 else find_node key filt rest

/-- One of the up-to-3 redirection specs of a job: optional path plus
open flags. -/
structure IORedir where
  path : Option String
  oflag : Nat

/-- One pipeline submitted at a prompt.  `io` holds the 3 redirection
specs, `pgid` is 0 until the first child is created. -/
structure Job where
  procs : List MProc
  io : List IORedir
  pgid : Nat
  bkg : Bool

/-- Modelled from the spec: `marcel.h` is absent from src/; §6 reserves a
code for exec failure.  The concrete value is arbitrary. -/
def M_FAILED_EXEC : Int := 254

/-- Modelled from the spec: `marcel.h` is absent from src/; §6 reserves a
code for I/O/open failure, distinct from the exec-failure code. -/
def M_FAILED_IO : Int := 253

/-- Default mode with which to create files (0666). -/
def FILE_MASK : Nat := 438

/-- Oracle describing the OS behaviour during one `launch_job` call:
whether the k-th `open` fails, whether the k-th `fork` fails, whether
`execvp` succeeds on a given argv, the `interactive` shell global, and
the `strerror(errno)` text reported on failures. -/
structure Sys where
  openFails : Nat → Bool
  forkFails : Nat → Bool
  execOk : List String → Bool
  interactive : Bool
  strerror : String

/-- How control leaves `launch_job` on success: non-interactive wait,
background registration, or foreground hand-off (all delegated to the
external job registry). -/
inductive Dispo where
  | waited
  | background
  | foreground
  deriving DecidableEq

/-- What happens in a forked child after `fork`: either the image is
replaced (carrying the applied env overrides and the fds dup2-ed into
slots 0/1/2), or `execvp` failed and the child did `_Exit(M_FAILED_EXEC)`
(exec_proc in execute.c). -/
inductive ChildOutcome where
  | execed (argv : List String) (env : List (String × String)) (fds : Fin 3 → Nat)
  | exitedWith (code : Int)

/-- Shell-side state threaded through `launch_job`: the next free
descriptor (the shell starts with only 0,1,2 open), the set of
descriptors currently open in the shell, pid allocation, counters for the
open/fork oracles, the pipes created, the pids forked, the process-group
assignments performed (pid, parent-side pgid, child-side pgid), the
per-process records at the moment they were launched, the child outcomes,
the job's `pgid` field, the terminal owner, the final disposition, and
the external world. -/
structure LState where
  nextFd : Nat
  openFds : Finset Nat
  nextPid : Nat
  openCount : Nat
  forkCount : Nat
  pipes : List (Nat × Nat)
  forkedPids : List Nat
  pgAssigns : List (Nat × Nat × Nat)
  launched : List MProc
  children : List ChildOutcome
  jpgid : Nat
  termOwner : Option Nat
  dispo : Option Dispo
  world : World

/-- The shell state at the start of a `launch_job` call: descriptors
0,1,2 open, fresh descriptors from 3 up, fresh pids from 1001 up. -/
def initLState (w : World) : LState :=
  { nextFd := 3, openFds := {0, 1, 2}, nextPid := 1001, openCount := 0,
    forkCount := 0, pipes := [], forkedPids := [], pgAssigns := [],
    launched := [], children := [], jpgid := 0, termOwner := none,
    dispo := none, world := w }

/-- Close a descriptor in the shell. -/
def close_fd (fd : Nat) (st : LState) : LState :=
  { st with openFds := st.openFds.erase fd }

/-- fd_cleanup from execute.c: walk the first `n` slots of a descriptor
array and close every entry that does not equal its own index. -/
def fd_cleanup (arr : Fin 3 → Nat) (n : Nat) (st : LState) : LState :=
  ((List.finRange 3).take n).foldl
    (fun s i => if arr i ≠ i.val then close_fd (arr i) s else s) st

/-- An `open(path, oflag, FILE_MASK)` call: fails according to the
oracle, otherwise returns the next free descriptor and marks it open. -/
def open_call (sys : Sys) (path : String) (oflag : Nat) (mask : Nat)
    (st : LState) : Option Nat × LState :=
  if sys.openFails st.openCount then
    (none, { st with openCount := st.openCount + 1 })
  else
    (some st.nextFd,
     { st with openCount := st.openCount + 1, nextFd := st.nextFd + 1,
               openFds := insert st.nextFd st.openFds })

/-- A `pipe(fd)` call: allocates a fresh read end `fd[0]` and write end
`fd[1]`, both open in the shell, and records the pair. -/
def pipe_call (st : LState) : (Nat × Nat) × LState :=
  ((st.nextFd, st.nextFd + 1),
   { st with nextFd := st.nextFd + 2,
             openFds := insert st.nextFd (insert (st.nextFd + 1) st.openFds),
             pipes := st.pipes ++ [(st.nextFd, st.nextFd + 1)] })

/-- A `fork()` call: fails according to the oracle, otherwise returns a
fresh child pid. -/
def fork_call (sys : Sys) (st : LState) : Option Nat × LState :=
  if sys.forkFails st.forkCount then
    (none, { st with forkCount := st.forkCount + 1 })
  else
    (some st.nextPid, { st with forkCount := st.forkCount + 1,
                                nextPid := st.nextPid + 1 })

/-- Effective process-group id installed by the parent's side of
Set_proc_group: the parent calls it with the child's pid, sets `j->pgid`
to that pid when it was still 0, and calls `setpgid(pid, pgid)`. -/
def set_proc_group_parent (pid jpgid : Nat) : Nat :=
  if jpgid = 0 then pid else jpgid

/-- Effective process-group id installed by the child's side of
Set_proc_group: the child calls it with PID = 0 (its `fork` return
value), so its `if (!PGID) PGID = PID` leaves PGID = 0 when the snapshot
was 0, and `setpgid(0, 0)` then means "put the caller in a group of its
own pid" under POSIX semantics. -/
def set_proc_group_child (selfPid jpgid : Nat) : Nat :=
  let pgid := if jpgid = 0 then 0 else jpgid
  if pgid = 0 then selfPid else pgid

/-- exec_proc from execute.c, child side: apply the env overrides, dup2
the three fds into slots 0/1/2, and `execvp`; on exec failure the child
terminates itself with `_Exit(M_FAILED_EXEC)`. -/
def exec_proc (sys : Sys) (p : MProc) : ChildOutcome :=
  if sys.execOk p.argv then .execed p.argv p.env p.fds
  else .exitedWith M_FAILED_EXEC

/-- Outcome of launching one process of the pipeline: normal
continuation, a failed `fork` (launch_job returns M_FAILED_EXEC), or the
whole shell process terminated because a builtin called `exit`. -/
inductive StepOut where
  | ok (st : LState)
  | forkFailed (st : LState)
  | shellExited (st : LState)

/-- Shell state carried by any `StepOut`. -/
def StepOut.state : StepOut → LState
  | .ok st => st
  | .forkFailed st => st
  | .shellExited st => st

/-- Launch one process, from the per-process body of the loop in
launch_job: look up `argv[0]` among command-kind builtin bindings; if
found, run the builtin in-process and mark the process completed with its
return value; otherwise fork, both sides performing Set_proc_group when
interactive (and handing the terminal to the group when the job is
foreground), the child running exec_proc, the parent recording the pid.
Finally fd_cleanup the process's whole fd table. -/
def launch_one (sys : Sys) (table : List (String × Builtin)) (bkg : Bool)
    (p : MProc) (st : LState) : StepOut :=
  match find_node (p.argv.getD 0 "") filter_command table with
  | some b =>
    let r := b.cmd p st.world
    match r.2.exited with
    | some _ => .shellExited { st with world := r.2 }
    | none =>
      let p2 : MProc := { p with exit_code := r.1, completed := true }
      .ok (fd_cleanup p2.fds 3
            { st with world := r.2, launched := st.launched ++ [p2] })
  | none =>
    match fork_call sys st with
    | (none, st1) =>
      .forkFailed { st1 with world := { st1.world with
        errs := st1.world.errs ++ ["Could not fork process: " ++ sys.strerror] } }
    | (some pid, st1) =>
      let st2 :=
        if sys.interactive then
          let ppg := set_proc_group_parent pid st1.jpgid
          let cpg := set_proc_group_child pid st1.jpgid
          { st1 with jpgid := ppg,
                     pgAssigns := st1.pgAssigns ++ [(pid, ppg, cpg)],
                     termOwner := if bkg then st1.termOwner else some ppg }
        else st1
      let p2 : MProc := { p with pid := pid }
      let st3 := { st2 with
        forkedPids := st2.forkedPids ++ [pid],
        launched := st2.launched ++ [p2],
        children := st2.children ++ [exec_proc sys p] }
      .ok (fd_cleanup p2.fds 3 st3)

/-- Result of `launch_job`: either the function returned with an integer
code, or it never returned because a builtin terminated the shell. -/
inductive LaunchOut where
  | ret (code : Int)
  | exited
  deriving DecidableEq

/-- The pending stdin descriptor for the next process: the C loop writes
`p_next->fds[0] = fd[0]` into the next process before its iteration; the
model installs that value (and the job's input descriptor for the first
process) when the process becomes the head of the remaining list. -/
def apply_carry (carry : Option Nat) (p : MProc) : MProc :=
  match carry with
  | none => p
  | some v => { p with fds := Function.update p.fds 0 v }

/-- The per-process loop of launch_job: for every process except the
last, create a pipe, assign its write end as the current process's stdout
and its read end as the next process's stdin; then launch the process.  A
failed fork aborts the whole launch with M_FAILED_EXEC. -/
def launch_loop (sys : Sys) (table : List (String × Builtin)) (bkg : Bool) :
    Option Nat → List MProc → LState → LaunchOut × LState
  | _, [], st => (.ret 0, st)
  | carry, [p], st =>
    match launch_one sys table bkg (apply_carry carry p) st with
    | .ok st2 => (.ret 0, st2)
    | .forkFailed st2 => (.ret M_FAILED_EXEC, st2)
    | .shellExited st2 => (.exited, st2)
  | carry, p :: q :: rest, st =>
    let p1 := apply_carry carry p
    let pr := pipe_call st
    let p2 : MProc := { p1 with fds := Function.update p1.fds 1 pr.1.2 }
    match launch_one sys table bkg p2 pr.2 with
    | .ok st2 => launch_loop sys table bkg (some pr.1.1) (q :: rest) st2
    | .forkFailed st2 => (.ret M_FAILED_EXEC, st2)
    | .shellExited st2 => (.exited, st2)

/-- The redirection-open loop of launch_job over the remaining indices of
`io_fd`: if a path is present at index i, open it; on failure, fd_cleanup
the first i slots of `io_fd`, report the OS error string and fail (the
caller returns M_FAILED_IO). -/
def open_io_fds (sys : Sys) (io : List IORedir) :
    List (Fin 3) → (Fin 3 → Nat) → LState → Option (Fin 3 → Nat) × LState
  | [], io_fd, st => (some io_fd, st)
  | i :: rest, io_fd, st =>
    match (io.getD i.val { path := none, oflag := 0 }).path with
    | none => open_io_fds sys io rest io_fd st
    | some pth =>
      match open_call sys pth (io.getD i.val { path := none, oflag := 0 }).oflag
              FILE_MASK st with
      | (none, st1) =>
        (none, fd_cleanup io_fd i.val
                 { st1 with world := { st1.world with
                     errs := st1.world.errs ++ [sys.strerror] } })
      | (some fd, st1) => open_io_fds sys io rest (Function.update io_fd i fd) st1

/-- Bind the resolved output/error descriptors as stdout/stderr of the
last process (`proc_end[-1]->fds[1] = io_fd[1]; proc_end[-1]->fds[2] =
io_fd[2]` in execute.c). -/
def set_last_io (io1 io2 : Nat) : List MProc → List MProc
  | [] => []
  | [p] => [{ p with fds := Function.update (Function.update p.fds 1 io1) 2 io2 }]
  | p :: q :: rest => p :: set_last_io io1 io2 (q :: rest)

/-- Shell state at entry to launch_job, carrying the job's pgid field. -/
def launch_init (j : Job) (w : World) : LState :=
  { initLState w with jpgid := j.pgid }

/-- The tail of launch_job: when the per-process loop fell through (code
0), either wait for the whole job (non-interactive), register it as
background and report "launched", or send it to the foreground; an early
return from the loop passes through unchanged. -/
def launch_finish (sys : Sys) (j : Job) : LaunchOut × LState → LaunchOut × LState
  | (.ret 0, st2) =>
    (.ret 0,
     if ¬ sys.interactive then { st2 with dispo := some .waited }
     else if j.bkg then { st2 with dispo := some .background }
     else { st2 with dispo := some .foreground })
  | out => out

/-- launch_job from execute.c.  Opens the redirections (all-or-nothing),
binds the resolved descriptors to the first/last process, runs the
per-process loop, then either waits (non-interactive), registers the job
as background, or sends it to the foreground.  The C function ends with
`return 0`.  A job always holds at least one process (produced by the
parser); the empty case is vacuous. -/
def launch_job (sys : Sys) (table : List (String × Builtin)) (j : Job)
    (w : World) : LaunchOut × LState :=
  match open_io_fds sys j.io (List.finRange 3) defFds (launch_init j w) with
  | (none, st1) => (.ret M_FAILED_IO, st1)
  | (some io_fd, st1) =>
    match j.procs with
    | [] => (.ret 0, st1)
    | _ :: _ =>
      launch_finish sys j
        (launch_loop sys table j.bkg (some (io_fd 0))
          (set_last_io (io_fd 1) (io_fd 2) j.procs) st1)

/-! Builtin bodies (execute.c) and initialize_builtins. -/

/-- Build-time VERSION macro; not part of src/. -/
def VERSION : String := "?"

/-- The static help banner written by m_help. -/
def help_msg : String :=
  "Marcel the Shell (with shoes on) v. " ++ VERSION ++ "\n" ++
    "Written by Chad Sharp\n\n" ++ "This shell only fights when provoked.\n"

/-- m_cd from execute.c: target is `argv[1]` or `$HOME`; the token `-`
means the previous working directory and is a reported error when no
directory change has happened yet (`oldpwd` empty); `oldpwd` is updated
from `getcwd` unconditionally before the `chdir` attempt, whose failure
is reported with a non-zero return. -/
def m_cd (p : MProc) (w : World) : Int × World :=
  let dir0 := p.argv.getD 1 w.home
  let old := dir0 = "-"
  if old ∧ w.oldpwd = "" then
    (1, { w with errs := w.errs ++ ["OLDPWD not set"] })
  else
    let dir := if old then w.oldpwd else dir0
    let w1 := { w with oldpwd := w.cwd }
    if w1.chdirFails dir then
      (1, { w1 with errs := w1.errs ++ ["chdir failed"] })
    else
      (0, { w1 with cwd := dir })

/-- m_exit from execute.c: `exit(exit_code)` terminates the whole shell
process; it never returns, modelled by setting `World.exited`, which
halts the launch machinery. -/
def m_exit (p : MProc) (w : World) : Int × World :=
  (0, { w with exited := some w.exit_code })

/-- m_help from execute.c: writes the static banner to the process's
bound stdout descriptor `p->fds[1]`, not to a blanket standard output. -/
def m_help (p : MProc) (w : World) : Int × World :=
  (0, { w with writes := w.writes ++ [(p.fds 1, help_msg)] })

/-- Names of shell builtins (execute.c). -/
def builtin_names : List String := ["cd", "exit", "help"]

/-- Functions associated with shell builtins (execute.c). -/
def builtin_funcs : List (MProc → World → Int × World) := [m_cd, m_exit, m_help]

/-- Process-wide globals owned by the builtin table machinery: the lookup
table and the number of registered `atexit` teardown handlers. -/
structure ShellGlobals where
  lookup_table : List (String × Builtin)
  teardowns : Nat

/-- Modelled from the spec: `new_table` of the external hash table
creates an empty table. -/
def new_table : List (String × Builtin) := []

/-- Modelled from the spec: `add_node` of the external hash table binds a
key to a value and returns 0 on success; allocation failure aborts the
process via Assert_alloc, so failure is not modelled. -/
def add_node (key : String) (b : Builtin) (t : List (String × Builtin)) :
    Nat × List (String × Builtin) :=
  (0, t ++ [(key, b)])

/-- The registration loop of initialize_builtins: each builtin name is
bound to a freshly allocated command-kind binding; a non-zero add_node
result aborts with failure. -/
def add_builtins : List (String × (MProc → World → Int × World)) →
    List (String × Builtin) → Bool × List (String × Builtin)
  | [], t => (true, t)
  | nb :: rest, t =>
    let r := add_node nb.1 { type := BType.CMD, cmd := nb.2 } t
    if r.1 ≠ 0 then (false, r.2) else add_builtins rest r.2

/-- initialize_builtins from execute.c: build a fresh table binding every
builtin name to its command-kind function, register the cleanup handler
with `atexit` (modelled as always succeeding), and return true. -/
def initialize_builtins (g : ShellGlobals) : Bool × ShellGlobals :=
  let r := add_builtins (builtin_names.zip builtin_funcs) new_table
  if r.1 = false then (false, { g with lookup_table := r.2 })
  else (true, { g with lookup_table := r.2, teardowns := g.teardowns + 1 })

/-! The SIGCHLD branch of handle_signals (signals.c). -/

/-- One return of `waitpid(-1, &status, WNOHANG | WUNTRACED)`: 0 (some
child exists but no status change is pending), -1 (no child processes at
all), or a reaped pid with its raw wait status. -/
inductive WRes where
  | noChange
  | noChildren
  | reaped (pid : Nat) (status : Nat)
  deriving DecidableEq

/-- WEXITSTATUS: bits 8-15 of the raw wait status. -/
def wexitstatus (status : Nat) : Nat := status / 256 % 256

/-- WIFSTOPPED: the low byte of the raw wait status is 0x7f. -/
def wifstopped (status : Nat) : Bool := status % 256 = 127

/-- State touched by the SIGCHLD handler: the tracked active (foreground)
child, the external background-job registry keyed by pid, and the text
printed by the handler.  Modelled from the spec for the parts living in
children.c, which is absent from src/. -/
structure SigState where
  active : Option Nat
  bkgJobs : List (Nat × Nat)
  output : List String
  deriving DecidableEq

/-- Modelled from the spec: `del_bkg_proc(pid)` of the external job
registry removes a background job by pid and returns its job number. -/
def del_bkg_proc (pid : Nat) (jobs : List (Nat × Nat)) :
    Nat × List (Nat × Nat) :=
  match jobs.find? (fun jb => jb.1 = pid) with
  | some jb => (jb.2, jobs.filter (fun jb2 => jb2.1 ≠ pid))
  | none => (0, jobs)

/-- The line printed for a reaped background pid:
`printf("[%zu] completed. Exit: %d\n", job_num, WEXITSTATUS(status))`. -/
def completion_msg (job_num code : Nat) : String :=
  "[" ++ toString job_num ++ "] completed. Exit: " ++ toString code

/-- The SIGCHLD loop of handle_signals, consuming the successive returns
of the non-blocking waitpid: stop on 0; on -1 clear the active-child
tracking when this is the first iteration; a reaped pid equal to the
active child clears that tracking and the loop continues; any other
reaped pid is removed through del_bkg_proc and its completion is
reported. -/
def handle_sigchld : List WRes → Bool → SigState → SigState
  | [], _, st => st
  | r :: rest, first_iter, st =>
    match r with
    | .noChange => st
    | .noChildren => if first_iter then { st with active := none } else st
    | .reaped pid status =>
      if st.active = some pid then
        handle_sigchld rest false { st with active := none }
      else
        let d := del_bkg_proc pid st.bkgJobs
        handle_sigchld rest false
          { st with bkgJobs := d.2,
                    output := st.output ++
                      [completion_msg d.1 (wexitstatus status)] }

/-- The claim-side description of what one reaped pid does to the handler
state: an active-child pid clears the tracking slot; any other pid is a
background job, removed via del_bkg_proc with its completion reported. -/
def reap_step (st : SigState) (pr : Nat × Nat) : SigState :=
  if st.active = some pr.1 then { st with active := none }
  else
    let d := del_bkg_proc pr.1 st.bkgJobs
    { st with bkgJobs := d.2,
              output := st.output ++ [completion_msg d.1 (wexitstatus pr.2)] }

/-! Derived notions used to state the claims. -/

/-- The descriptors of a 3-slot array that do not equal their own index:
exactly the ones fd_cleanup closes when run over the whole array. -/
def ndList (arr : Fin 3 → Nat) (l : List (Fin 3)) : Finset Nat :=
  (l.filterMap (fun i => if arr i ≠ i.val then some (arr i) else none)).toFinset

/-- The non-default descriptors of a process's fd table. -/
def ndFds (p : MProc) : Finset Nat := ndList p.fds (List.finRange 3)

/-- All non-default descriptors held by a list of processes. -/
def pendList : List MProc → Finset Nat
  | [] => ∅
  | p :: rest => ndFds p ∪ pendList rest

/-- The descriptor a pending stdin assignment would leave non-default in
slot 0: none when there is no pending assignment or it is the default
stdin descriptor 0. -/
def carrySet : Option Nat → Finset Nat
  | none => ∅
  | some v => if v = 0 then ∅ else {v}

/-- Shape of the remaining pipeline during the launch loop: every
process but the last still has default stdout/stderr slots (only the pipe
wiring of its own iteration may change them) and every process but the
first still has a default stdin slot. -/
def chainShape : List MProc → Prop
  | [] => True
  | [_] => True
  | p :: q :: rest =>
    p.fds 1 = 1 ∧ p.fds 2 = 2 ∧ q.fds 0 = 0 ∧ chainShape (q :: rest)

/-- The pipe-wiring relation of claim C2 between the launched process
records and the pipes created, in order: each pipe's write end is the
current process's stdout slot and its read end is the next process's
stdin slot; the last process gets no pipe. -/
def pipeWired : List MProc → List (Nat × Nat) → Prop
  | [], [] => True
  | [_], [] => True
  | p :: q :: rest, rw :: prest =>
    p.fds 1 = rw.2 ∧ q.fds 0 = rw.1 ∧ pipeWired (q :: rest) prest
  | _, _ => False

/-- Placeholder process used as the default of list indexing. -/
def dummyProc : MProc :=
  { argv := [], env := [], fds := defFds, pid := 0, completed := false,
    exit_code := 0 }

/-! Concrete fixtures used by witnesses and counterexamples. -/

/-- A quiescent external world; `chdir` fails only on `/nx`. -/
def wWorld : World :=
  { chdirFails := (fun s => s == "/nx"), cwd := "/", home := "/root",
    oldpwd := "", exit_code := 0, exited := none, writes := [], errs := [] }

/-- An OS oracle where every call succeeds, in interactive mode. -/
def sysOK : Sys :=
  { openFails := (fun _ => false), forkFails := (fun _ => false),
    execOk := (fun _ => true), interactive := true, strerror := "E" }

/-- Like sysOK but the second `open` call fails. -/
def sysOpenFail1 : Sys := { sysOK with openFails := (fun k => k == 1) }

/-- Like sysOK but the second `fork` call fails. -/
def sysForkFail1 : Sys := { sysOK with forkFails := (fun k => k == 1) }

/-- A fresh process with the given argv, as built by the parser on top of
new_cmd. -/
def mkProc (argv : List String) : MProc :=
  { argv := argv, env := [], fds := defFds, pid := 0, completed := false,
    exit_code := 0 }

/-- The builtin lookup table as populated by initialize_builtins. -/
def builtinTable : List (String × Builtin) :=
  (initialize_builtins ⟨[], 0⟩).2.lookup_table

/-- No redirections. -/
def ioNone : List IORedir :=
  [{ path := none, oflag := 0 }, { path := none, oflag := 0 },
   { path := none, oflag := 0 }]

/-- Redirect stdout to a file. -/
def ioOut : List IORedir :=
  [{ path := none, oflag := 0 }, { path := some "out.txt", oflag := 65 },
   { path := none, oflag := 0 }]

/-- Redirect stdin and stdout. -/
def ioInOut : List IORedir :=
  [{ path := some "in.txt", oflag := 0 }, { path := some "out.txt", oflag := 65 },
   { path := none, oflag := 0 }]

/-- Single-process job running the `cd` builtin on a directory whose
`chdir` fails. -/
def jobCd : Job :=
  { procs := [mkProc ["cd", "/nx"]], io := ioNone, pgid := 0, bkg := false }

/-- Three-stage pipeline of external commands with stdout redirected. -/
def jobPipe3 : Job :=
  { procs := [mkProc ["a"], mkProc ["b"], mkProc ["c"]], io := ioOut,
    pgid := 0, bkg := false }

/-- Single external command with stdin and stdout redirected. -/
def jobInOut : Job :=
  { procs := [mkProc ["a"]], io := ioInOut, pgid := 0, bkg := false }

/-! Theorems.  First the signal-driven reaper (claims C7 and C10), then
the builtin table (claim C9), then the launcher (claims C1 to C6, C8). -/

/-- After its first iteration the SIGCHLD loop processes each further
reaped pid exactly as `reap_step` describes, and stops without touching
the active-child tracking when waitpid reports 0 or -1. -/
theorem handle_sigchld_false_run (t : WRes)
    (ht : t = WRes.noChange ∨ t = WRes.noChildren) :
    ∀ (ps : List (Nat × Nat)) (st : SigState),
      handle_sigchld (ps.map (fun pr => WRes.reaped pr.1 pr.2) ++ [t]) false st
        = ps.foldl reap_step st := by
  intro ps
  induction ps with
  | nil =>
    intro st
    rcases ht with h | h <;> subst h <;> simp [handle_sigchld]
  | cons pr ps ih =>
    intro st
    by_cases h : st.active = some pr.1 <;>
      simp [handle_sigchld, h, reap_step, ih]

/-- C7: on SIGCHLD the handler polls non-blockingly until no status
change is pending; if the very first poll reports no children at all the
active-child tracking is cleared; a reaped pid equal to the active child
clears that tracking and polling continues; every other reaped pid is
removed through the registry's del_bkg_proc and its completion (job
number and exit status) is reported — summarised by `reap_step`. -/
theorem claim_C7_sigchld_handler (ps : List (Nat × Nat)) (st : SigState) :
    handle_sigchld (ps.map (fun pr => WRes.reaped pr.1 pr.2) ++ [WRes.noChange])
        true st = ps.foldl reap_step st
    ∧ handle_sigchld (ps.map (fun pr => WRes.reaped pr.1 pr.2) ++ [WRes.noChildren])
        true st =
        (if ps = [] then { st with active := none } else ps.foldl reap_step st) := by
  constructor
  · cases ps with
    | nil => simp [handle_sigchld]
    | cons pr ps =>
      by_cases h : st.active = some pr.1 <;>
        simp [handle_sigchld, h, reap_step,
          handle_sigchld_false_run WRes.noChange (Or.inl rfl)]
  · cases ps with
    | nil => simp [handle_sigchld]
    | cons pr ps =>
      by_cases h : st.active = some pr.1 <;>
        simp [handle_sigchld, h, reap_step,
          handle_sigchld_false_run WRes.noChildren (Or.inr rfl)]

/-- C10: a child reported as stopped (low status byte 0x7f, possible
because the non-blocking poll passes WUNTRACED) whose pid is not the
active child is handled exactly like a terminated background child with
the same WEXITSTATUS byte: it is removed from the registry via
del_bkg_proc and a "completed" line with that exit status is printed —
the handler never distinguishes stopped from exited statuses. -/
theorem claim_C10_stopped_child_reaped_as_completed
    (pid s : Nat) (rest : List WRes) (first : Bool) (st : SigState)
    (hstop : wifstopped s = true) (hact : st.active ≠ some pid) :
    handle_sigchld (WRes.reaped pid s :: rest) first st
        = handle_sigchld (WRes.reaped pid (wexitstatus s * 256) :: rest) first st
    ∧ handle_sigchld (WRes.reaped pid s :: rest) first st
        = handle_sigchld rest false
            { st with
              bkgJobs := (del_bkg_proc pid st.bkgJobs).2,
              output := st.output ++
                [completion_msg (del_bkg_proc pid st.bkgJobs).1 (wexitstatus s)] } := by
  have hw : wexitstatus (wexitstatus s * 256) = wexitstatus s := by
    unfold wexitstatus
    omega
  constructor
  · simp [handle_sigchld, hact, hw]
  · simp [handle_sigchld, hact]

/-- Witness for C10: pid 500 stopped by signal 19 (raw status
19*256+0x7f) while pid 100 is the active child and job 2 is registered
for pid 500: the job is deleted and "[2] completed. Exit: 19" printed. -/
theorem claim_C10_witness :
    wifstopped 4991 = true
    ∧ (SigState.mk (some 100) [(500, 2)] []).active ≠ some 500
    ∧ handle_sigchld [WRes.reaped 500 4991] true
          (SigState.mk (some 100) [(500, 2)] [])
        = handle_sigchld [WRes.reaped 500 (wexitstatus 4991 * 256)] true
            (SigState.mk (some 100) [(500, 2)] []) :=
  ⟨by decide, by decide,
   (claim_C10_stopped_child_reaped_as_completed 500 4991 [] true
      (SigState.mk (some 100) [(500, 2)] []) (by decide) (by decide)).1⟩

/-- C9: initialize_builtins always reports success, installs the atexit
teardown, binds each of the three builtin names once to its command-kind
function, and running it a second time leaves the lookup table in exactly
the state the first call produced. -/
theorem claim_C9_initialize_builtins_idempotent (g : ShellGlobals) :
    (initialize_builtins (initialize_builtins g).2).2.lookup_table
        = (initialize_builtins g).2.lookup_table
    ∧ (initialize_builtins g).1 = true
    ∧ (initialize_builtins (initialize_builtins g).2).1 = true
    ∧ (initialize_builtins g).2.lookup_table
        = [("cd", ⟨BType.CMD, m_cd⟩), ("exit", ⟨BType.CMD, m_exit⟩),
           ("help", ⟨BType.CMD, m_help⟩)]
    ∧ (initialize_builtins g).2.lookup_table.map Prod.fst = builtin_names
    ∧ (initialize_builtins g).2.teardowns = g.teardowns + 1 :=
  ⟨rfl, rfl, rfl, rfl, rfl, rfl⟩

/-! Bookkeeping lemmas about fd_cleanup and launch_one. -/

theorem ndList_cons_nd {arr : Fin 3 → Nat} {i : Fin 3} (l : List (Fin 3))
    (h : arr i ≠ i.val) :
    ndList arr (i :: l) = insert (arr i) (ndList arr l) := by
  simp [ndList, h]

theorem ndList_cons_d {arr : Fin 3 → Nat} {i : Fin 3} (l : List (Fin 3))
    (h : ¬ arr i ≠ i.val) :
    ndList arr (i :: l) = ndList arr l := by
  simp [ndList, h]

theorem foldl_close_spec (arr : Fin 3 → Nat) :
    ∀ (l : List (Fin 3)) (st : LState),
      l.foldl (fun s i => if arr i ≠ i.val then close_fd (arr i) s else s) st
        = { st with openFds := st.openFds \ ndList arr l } := by
  intro l
  induction l with
  | nil =>
    intro st
    simp [ndList]
  | cons i l ih =>
    intro st
    by_cases h : arr i ≠ i.val
    · rw [List.foldl_cons, if_pos h, ih, ndList_cons_nd l h]
      simp only [close_fd]
      refine congrArg (fun o => { st with openFds := o }) ?_
      rw [Finset.erase_eq, sdiff_sdiff, Finset.insert_eq, Finset.sup_eq_union]
    · rw [List.foldl_cons, if_neg h, ih, ndList_cons_d l h]

theorem fd_cleanup_spec (arr : Fin 3 → Nat) (st : LState) :
    fd_cleanup arr 3 st = { st with openFds := st.openFds \ ndList arr (List.finRange 3) } := by
  unfold fd_cleanup
  rw [show (List.finRange 3).take 3 = List.finRange 3 from by decide]
  exact foldl_close_spec arr _ st

/-- Launching one process leaves the record of that process (with its fd
table as passed in) appended to the launched list, creates no pipe and no
descriptor, closes exactly the process's non-default descriptors in the
shell, and either ran a builtin (no fork, pid allocation untouched) or
forked exactly once, performing the process-group assignment on both
sides when interactive. -/
theorem launch_one_ok_spec (sys : Sys) (table : List (String × Builtin))
    (bkg : Bool) (p : MProc) (st st₂ : LState)
    (h : launch_one sys table bkg p st = .ok st₂) :
    ∃ p', p'.fds = p.fds
      ∧ st₂.launched = st.launched ++ [p']
      ∧ st₂.pipes = st.pipes
      ∧ st₂.nextFd = st.nextFd
      ∧ st₂.openFds = st.openFds \ ndFds p
      ∧ ((st₂.forkedPids = st.forkedPids ∧ st₂.pgAssigns = st.pgAssigns
           ∧ st₂.jpgid = st.jpgid ∧ st₂.nextPid = st.nextPid)
         ∨ (st₂.forkedPids = st.forkedPids ++ [st.nextPid]
            ∧ st₂.nextPid = st.nextPid + 1
            ∧ (sys.interactive = true →
                 st₂.pgAssigns = st.pgAssigns ++
                   [(st.nextPid, set_proc_group_parent st.nextPid st.jpgid,
                     set_proc_group_child st.nextPid st.jpgid)]
                 ∧ st₂.jpgid = set_proc_group_parent st.nextPid st.jpgid)
            ∧ (sys.interactive = false →
                 st₂.pgAssigns = st.pgAssigns ∧ st₂.jpgid = st.jpgid))) := by
  unfold launch_one at h
  cases hfn : find_node (p.argv.getD 0 "") filter_command table with
  | some b =>
    rw [hfn] at h
    simp only at h
    cases hex : (b.cmd p st.world).2.exited with
    | some c =>
      rw [hex] at h
      cases h
    | none =>
      rw [hex] at h
      simp only [StepOut.ok.injEq] at h
      subst h
      refine ⟨{ p with exit_code := (b.cmd p st.world).1, completed := true },
        rfl, ?_, ?_, ?_, ?_, Or.inl ⟨?_, ?_, ?_, ?_⟩⟩ <;>
        simp [fd_cleanup_spec, ndFds]
  | none =>
    rw [hfn] at h
    by_cases hff : sys.forkFails st.forkCount
    · simp only [fork_call, hff, if_true] at h
      cases h
    · simp only [fork_call, hff, if_false, Bool.false_eq_true] at h
      cases hint : sys.interactive with
      | true =>
        simp only [hint, if_true, StepOut.ok.injEq] at h
        subst h
        refine ⟨{ p with pid := st.nextPid }, rfl, ?_, ?_, ?_, ?_,
          Or.inr ⟨?_, ?_, fun _ => ⟨?_, ?_⟩, fun hc => by simp [hint] at hc⟩⟩ <;>
          simp [fd_cleanup_spec, ndFds]
      | false =>
        simp only [hint, Bool.false_eq_true, if_false, StepOut.ok.injEq] at h
        subst h
        refine ⟨{ p with pid := st.nextPid }, rfl, ?_, ?_, ?_, ?_,
          Or.inr ⟨?_, ?_, fun hc => by simp [hint] at hc, fun _ => ⟨?_, ?_⟩⟩⟩ <;>
          simp [fd_cleanup_spec, ndFds]

/-- A failed fork leaves the shell state intact apart from the fork
counter and the diagnostic, and happens exactly when the oracle says the
fork fails. -/
theorem launch_one_forkFailed_spec (sys : Sys) (table : List (String × Builtin))
    (bkg : Bool) (p : MProc) (st st₂ : LState)
    (h : launch_one sys table bkg p st = .forkFailed st₂) :
    st₂.launched = st.launched ∧ st₂.pipes = st.pipes
    ∧ st₂.forkedPids = st.forkedPids ∧ st₂.pgAssigns = st.pgAssigns
    ∧ st₂.jpgid = st.jpgid ∧ sys.forkFails st.forkCount = true := by
  unfold launch_one at h
  cases hfn : find_node (p.argv.getD 0 "") filter_command table with
  | some b =>
    rw [hfn] at h
    simp only at h
    cases hex : (b.cmd p st.world).2.exited with
    | some c => rw [hex] at h; cases h
    | none => rw [hex] at h; cases h
  | none =>
    rw [hfn] at h
    by_cases hff : sys.forkFails st.forkCount
    · simp only [fork_call, hff, if_true, StepOut.forkFailed.injEq] at h
      subst h
      exact ⟨rfl, rfl, rfl, rfl, rfl, hff⟩
    · simp only [fork_call, hff, if_false, Bool.false_eq_true] at h
      cases hint : sys.interactive <;> rw [hint] at h <;> simp at h <;> cases h

/-- A builtin that terminates the shell leaves the launch bookkeeping
untouched (only the world changes). -/
theorem launch_one_shellExited_spec (sys : Sys) (table : List (String × Builtin))
    (bkg : Bool) (p : MProc) (st st₂ : LState)
    (h : launch_one sys table bkg p st = .shellExited st₂) :
    st₂.launched = st.launched ∧ st₂.pipes = st.pipes
    ∧ st₂.forkedPids = st.forkedPids ∧ st₂.pgAssigns = st.pgAssigns
    ∧ st₂.jpgid = st.jpgid := by
  unfold launch_one at h
  cases hfn : find_node (p.argv.getD 0 "") filter_command table with
  | some b =>
    rw [hfn] at h
    simp only at h
    cases hex : (b.cmd p st.world).2.exited with
    | some c =>
      rw [hex] at h
      simp only [StepOut.shellExited.injEq] at h
      subst h
      exact ⟨rfl, rfl, rfl, rfl, rfl⟩
    | none => rw [hex] at h; cases h
  | none =>
    rw [hfn] at h
    by_cases hff : sys.forkFails st.forkCount
    · simp only [fork_call, hff, if_true] at h
      cases h
    · simp only [fork_call, hff, if_false, Bool.false_eq_true] at h
      cases hint : sys.interactive <;> rw [hint] at h <;> simp at h <;> cases h

/-- Forked pids are only ever appended by the launch loop, whatever its
outcome: nothing started is ever rolled back by the launcher. -/
theorem launch_loop_forked_mono (sys : Sys) (table : List (String × Builtin))
    (bkg : Bool) :
    ∀ (ps : List MProc) (carry : Option Nat) (st : LState),
      ∃ new, (launch_loop sys table bkg carry ps st).2.forkedPids
        = st.forkedPids ++ new := by
  intro ps
  induction ps with
  | nil =>
    intro carry st
    exact ⟨[], by simp [launch_loop]⟩
  | cons p rest ih =>
    intro carry st
    cases rest with
    | nil =>
      simp only [launch_loop]
      cases hs : launch_one sys table bkg (apply_carry carry p) st with
      | ok st2 =>
        obtain ⟨p', -, -, -, -, -, hfork⟩ := launch_one_ok_spec _ _ _ _ _ _ hs
        rcases hfork with ⟨hf, -, -, -⟩ | ⟨hf, -, -, -⟩
        · exact ⟨[], by simp [hf]⟩
        · exact ⟨[st.nextPid], by simp [hf]⟩
      | forkFailed st2 =>
        obtain ⟨-, -, hf, -, -, -⟩ := launch_one_forkFailed_spec _ _ _ _ _ _ hs
        exact ⟨[], by simp [hf]⟩
      | shellExited st2 =>
        obtain ⟨-, -, hf, -, -⟩ := launch_one_shellExited_spec _ _ _ _ _ _ hs
        exact ⟨[], by simp [hf]⟩
    | cons q rest2 =>
      simp only [launch_loop]
      cases hs : launch_one sys table bkg
          { apply_carry carry p with
            fds := Function.update (apply_carry carry p).fds 1 (pipe_call st).1.2 }
          (pipe_call st).2 with
      | ok st2 =>
        obtain ⟨p', -, -, -, -, -, hfork⟩ := launch_one_ok_spec _ _ _ _ _ _ hs
        obtain ⟨new2, hnew2⟩ := ih (some (pipe_call st).1.1) st2
        have hpc : (pipe_call st).2.forkedPids = st.forkedPids := rfl
        rcases hfork with ⟨hf, -, -, -⟩ | ⟨hf, -, -, -⟩
        · exact ⟨new2, by rw [hnew2, hf, hpc]⟩
        · refine ⟨(pipe_call st).2.nextPid :: new2, ?_⟩
          rw [hnew2, hf, hpc]
          simp
      | forkFailed st2 =>
        obtain ⟨-, -, hf, -, -, -⟩ := launch_one_forkFailed_spec _ _ _ _ _ _ hs
        exact ⟨[], by simp [hf, pipe_call]⟩
      | shellExited st2 =>
        obtain ⟨-, -, hf, -, -⟩ := launch_one_shellExited_spec _ _ _ _ _ _ hs
        exact ⟨[], by simp [hf, pipe_call]⟩

/-- The only way the launch loop returns a non-zero code is a failed
fork, and it then returns M_FAILED_EXEC with every pid forked so far
still recorded. -/
theorem launch_loop_fail_spec (sys : Sys) (table : List (String × Builtin))
    (bkg : Bool) :
    ∀ (ps : List MProc) (carry : Option Nat) (st : LState) (r : Int) (st' : LState),
      launch_loop sys table bkg carry ps st = (.ret r, st') → r ≠ 0 →
      r = M_FAILED_EXEC ∧ ∃ new, st'.forkedPids = st.forkedPids ++ new := by
  intro ps
  induction ps with
  | nil =>
    intro carry st r st' h h0
    simp only [launch_loop, Prod.mk.injEq, LaunchOut.ret.injEq] at h
    exact absurd h.1.symm h0
  | cons p rest ih =>
    intro carry st r st' h h0
    cases rest with
    | nil =>
      simp only [launch_loop] at h
      cases hs : launch_one sys table bkg (apply_carry carry p) st with
      | ok st2 =>
        rw [hs] at h
        simp only [Prod.mk.injEq, LaunchOut.ret.injEq] at h
        exact absurd h.1.symm h0
      | forkFailed st2 =>
        rw [hs] at h
        simp only [Prod.mk.injEq, LaunchOut.ret.injEq] at h
        obtain ⟨-, -, hf, -, -, -⟩ := launch_one_forkFailed_spec _ _ _ _ _ _ hs
        refine ⟨h.1.symm, [], ?_⟩
        rw [← h.2, hf]
        simp
      | shellExited st2 =>
        rw [hs] at h
        simp only [Prod.mk.injEq] at h
        cases h.1
    | cons q rest2 =>
      simp only [launch_loop] at h
      cases hs : launch_one sys table bkg
          { apply_carry carry p with
            fds := Function.update (apply_carry carry p).fds 1 (pipe_call st).1.2 }
          (pipe_call st).2 with
      | ok st2 =>
        rw [hs] at h
        obtain ⟨hr, new2, hnew2⟩ := ih _ _ _ _ h h0
        obtain ⟨p', -, -, -, -, -, hfork⟩ := launch_one_ok_spec _ _ _ _ _ _ hs
        have hpc : (pipe_call st).2.forkedPids = st.forkedPids := rfl
        refine ⟨hr, ?_⟩
        rcases hfork with ⟨hf, -, -, -⟩ | ⟨hf, -, -, -⟩
        · exact ⟨new2, by rw [hnew2, hf, hpc]⟩
        · refine ⟨(pipe_call st).2.nextPid :: new2, ?_⟩
          rw [hnew2, hf, hpc]
          simp
      | forkFailed st2 =>
        rw [hs] at h
        simp only [Prod.mk.injEq, LaunchOut.ret.injEq] at h
        obtain ⟨-, -, hf, -, -, -⟩ := launch_one_forkFailed_spec _ _ _ _ _ _ hs
        refine ⟨h.1.symm, [], ?_⟩
        rw [← h.2, hf]
        simp [pipe_call]
      | shellExited st2 =>
        rw [hs] at h
        simp only [Prod.mk.injEq] at h
        cases h.1

/-- launch_finish never changes the returned code nor any launch
bookkeeping; it only records the disposition. -/
theorem launch_finish_fields (sys : Sys) (j : Job) (r : LaunchOut × LState) :
    (launch_finish sys j r).1 = r.1
    ∧ (launch_finish sys j r).2.launched = r.2.launched
    ∧ (launch_finish sys j r).2.pipes = r.2.pipes
    ∧ (launch_finish sys j r).2.forkedPids = r.2.forkedPids
    ∧ (launch_finish sys j r).2.pgAssigns = r.2.pgAssigns
    ∧ (launch_finish sys j r).2.jpgid = r.2.jpgid
    ∧ (launch_finish sys j r).2.openFds = r.2.openFds := by
  rcases r with ⟨o, st2⟩
  cases o with
  | exited => exact ⟨rfl, rfl, rfl, rfl, rfl, rfl, rfl⟩
  | ret c =>
    rcases c with n | n
    · cases n with
      | zero =>
        show (launch_finish sys j (.ret 0, st2)).1 = _ ∧ _
        unfold launch_finish
        refine ⟨rfl, ?_, ?_, ?_, ?_, ?_, ?_⟩ <;> (split_ifs <;> rfl)
      | succ k => exact ⟨rfl, rfl, rfl, rfl, rfl, rfl, rfl⟩
    · exact ⟨rfl, rfl, rfl, rfl, rfl, rfl, rfl⟩

/-- When launch_job returns, its code is 0, M_FAILED_IO (redirection-open
failure) or M_FAILED_EXEC (fork failure). -/
theorem launch_job_ret_cases (sys : Sys) (table : List (String × Builtin))
    (j : Job) (w : World) (r : Int)
    (h : (launch_job sys table j w).1 = .ret r) :
    r = 0 ∨ r = M_FAILED_IO ∨ r = M_FAILED_EXEC := by
  unfold launch_job at h
  rcases hopen : open_io_fds sys j.io (List.finRange 3) defFds (launch_init j w)
    with ⟨oio, st1⟩
  rw [hopen] at h
  cases oio with
  | none =>
    simp only [LaunchOut.ret.injEq] at h
    exact Or.inr (Or.inl h.symm)
  | some io_fd =>
    cases hp : j.procs with
    | nil =>
      rw [hp] at h
      simp only [LaunchOut.ret.injEq] at h
      exact Or.inl h.symm
    | cons p ps =>
      rw [hp] at h
      simp only at h
      by_cases hr0 : r = 0
      · exact Or.inl hr0
      · rcases hloop : launch_loop sys table j.bkg (some (io_fd 0))
            (set_last_io (io_fd 1) (io_fd 2) (p :: ps)) st1 with ⟨o, st2⟩
        rw [hloop] at h
        rw [(launch_finish_fields sys j (o, st2)).1] at h
        simp only at h
        subst h
        exact Or.inr (Or.inr
          (launch_loop_fail_spec sys table j.bkg _ _ _ _ _ hloop hr0).1)

/-- Counterexample to C5 as stated: on the three-stage pipeline with the
second fork failing, launch_job returns exactly M_FAILED_EXEC — the same
reserved code exec_proc uses for exec failure — so it does not return a
fork-failure code distinct from the exec-failure code.  The first process
(pid 1001) had already been forked and is still recorded. -/
theorem claim_C5_counterexample :
    (launch_job sysForkFail1 builtinTable jobPipe3 wWorld).1
        = LaunchOut.ret M_FAILED_EXEC
    ∧ ¬ (∃ c : Int, (launch_job sysForkFail1 builtinTable jobPipe3 wWorld).1
          = LaunchOut.ret c ∧ c ≠ M_FAILED_EXEC)
    ∧ (launch_job sysForkFail1 builtinTable jobPipe3 wWorld).2.forkedPids
        = [1001] := by
  refine ⟨by decide, ?_, by decide⟩
  rintro ⟨c, hc, hne⟩
  have h1 : (launch_job sysForkFail1 builtinTable jobPipe3 wWorld).1
      = LaunchOut.ret M_FAILED_EXEC := by decide
  rw [h1] at hc
  injection hc with hc2
  exact hne hc2.symm

/-- C5 (amended): if launch_job aborts with a code that is neither 0 nor
the I/O-failure code, the failure was a failed fork and the code returned
is M_FAILED_EXEC — the reserved exec-failure code, shared with exec
failure and distinct only from the I/O-failure code — and the launch loop
never removes an already-forked pid, so processes launched before the
failing one keep running. -/
theorem claim_C5_fork_failure_aborts (sys : Sys)
    (table : List (String × Builtin)) (j : Job) (w : World) (r : Int)
    (h : (launch_job sys table j w).1 = .ret r) (h0 : r ≠ 0)
    (hio : r ≠ M_FAILED_IO) :
    r = M_FAILED_EXEC ∧ M_FAILED_EXEC ≠ M_FAILED_IO
    ∧ ∀ (ps : List MProc) (carry : Option Nat) (st : LState),
        ∃ new, (launch_loop sys table j.bkg carry ps st).2.forkedPids
          = st.forkedPids ++ new := by
  refine ⟨?_, by decide, fun ps carry st => launch_loop_forked_mono sys table j.bkg ps carry st⟩
  rcases launch_job_ret_cases sys table j w r h with h1 | h1 | h1
  · exact absurd h1 h0
  · exact absurd h1 hio
  · exact h1

theorem mem_ndList {a : Nat} {arr : Fin 3 → Nat} {l : List (Fin 3)} :
    a ∈ ndList arr l ↔ ∃ i ∈ l, arr i ≠ i.val ∧ arr i = a := by
  simp only [ndList, List.mem_toFinset, List.mem_filterMap]
  constructor
  · rintro ⟨i, hi, hf⟩
    by_cases h : arr i ≠ i.val
    · rw [if_pos h] at hf
      exact ⟨i, hi, h, Option.some.inj hf⟩
    · rw [if_neg h] at hf
      cases hf
  · rintro ⟨i, hi, h, ha⟩
    exact ⟨i, hi, by rw [if_pos h, ha]⟩

/-- When every slot at index at least k is still default, the first k
slots already hold every descriptor fd_cleanup would close. -/
theorem ndList_take_of_default {arr : Fin 3 → Nat} {k : Nat}
    (h : ∀ i : Fin 3, k ≤ i.val → arr i = i.val) :
    ndList arr ((List.finRange 3).take k) = ndList arr (List.finRange 3) := by
  apply Finset.ext
  intro a
  simp only [mem_ndList]
  constructor
  · rintro ⟨i, hi, hnd, ha⟩
    exact ⟨i, List.mem_finRange i, hnd, ha⟩
  · rintro ⟨i, -, hnd, ha⟩
    have hik : i.val < k := by
      by_contra hc
      exact hnd (h i (by omega))
    refine ⟨i, ?_, hnd, ha⟩
    have hlen : i.val < ((List.finRange 3).take k).length := by
      simp only [List.length_take, List.length_finRange]
      omega
    have hget : ((List.finRange 3).take k)[i.val] = i := by
      rw [List.getElem_take]
      simp
    exact hget ▸ List.getElem_mem hlen

/-- Writing a fresh descriptor into a still-default slot adds exactly
that descriptor to the set of non-default descriptors. -/
theorem ndList_update {arr : Fin 3 → Nat} {i : Fin 3} {v : Nat}
    (hd : arr i = i.val) (hv : v ≠ i.val) :
    ndList (Function.update arr i v) (List.finRange 3)
      = insert v (ndList arr (List.finRange 3)) := by
  apply Finset.ext
  intro a
  simp only [mem_ndList, Finset.mem_insert]
  constructor
  · rintro ⟨i2, -, hnd, ha⟩
    by_cases h : i2 = i
    · subst h
      rw [Function.update_same] at ha
      exact Or.inl ha.symm
    · rw [Function.update_noteq h] at hnd ha
      exact Or.inr ⟨i2, List.mem_finRange i2, hnd, ha⟩
  · rintro (ha | ⟨i2, -, hnd, ha⟩)
    · exact ⟨i, List.mem_finRange i, by rw [Function.update_same]; omega,
        by rw [Function.update_same, ha]⟩
    · have h : i2 ≠ i := by
        rintro rfl
        exact hnd hd
      exact ⟨i2, List.mem_finRange i2, by rw [Function.update_noteq h]; exact hnd,
        by rw [Function.update_noteq h]; exact ha⟩

/-- fd_cleanup over the first n slots closes exactly their non-default
descriptors. -/
theorem fd_cleanup_spec_n (arr : Fin 3 → Nat) (n : Nat) (st : LState) :
    fd_cleanup arr n st
      = { st with openFds := st.openFds \ ndList arr ((List.finRange 3).take n) } := by
  unfold fd_cleanup
  exact foldl_close_spec arr _ st

/-- The shell's initial descriptors 0,1,2 are disjoint from any set whose
members are all at least 3. -/
theorem std3_disjoint {s : Finset Nat} (h : ∀ a ∈ s, 3 ≤ a) :
    Disjoint ({0, 1, 2} : Finset Nat) s := by
  rw [Finset.disjoint_left]
  intro a ha has
  have h3 := h a has
  simp only [Finset.mem_insert, Finset.mem_singleton] at ha
  omega

/-- Behaviour of the redirection-open loop from any index k of io_fd
onward: on failure every descriptor opened in this call has been closed
again and the OS error string reported, with no other launch state
touched; on success the opened descriptors are exactly the non-default
entries of the resulting io_fd, all fresh, distinct, and open in the
shell, again with no other launch state touched. -/
theorem open_go (sys : Sys) (io : List IORedir) :
    ∀ (fuel k : Nat), k + fuel = 3 →
    ∀ (acc : Fin 3 → Nat) (st : LState),
      st.openFds = {0, 1, 2} ∪ ndList acc (List.finRange 3) →
      (∀ a ∈ ndList acc (List.finRange 3), 3 ≤ a ∧ a < st.nextFd) →
      3 ≤ st.nextFd →
      (∀ i : Fin 3, k ≤ i.val → acc i = i.val) →
      (∀ i i2 : Fin 3, i ≠ i2 → acc i ≠ i.val → acc i2 ≠ i2.val → acc i ≠ acc i2) →
      (∀ st', open_io_fds sys io ((List.finRange 3).drop k) acc st = (none, st') →
         st'.openFds = {0, 1, 2}
         ∧ st'.launched = st.launched ∧ st'.pipes = st.pipes
         ∧ st'.forkedPids = st.forkedPids ∧ st'.pgAssigns = st.pgAssigns
         ∧ st'.jpgid = st.jpgid
         ∧ st'.world = { st.world with errs := st.world.errs ++ [sys.strerror] })
      ∧ (∀ io_fd st1,
          open_io_fds sys io ((List.finRange 3).drop k) acc st = (some io_fd, st1) →
         st1.openFds = {0, 1, 2} ∪ ndList io_fd (List.finRange 3)
         ∧ (∀ a ∈ ndList io_fd (List.finRange 3), 3 ≤ a ∧ a < st1.nextFd)
         ∧ 3 ≤ st1.nextFd
         ∧ (∀ i i2 : Fin 3, i ≠ i2 → io_fd i ≠ i.val → io_fd i2 ≠ i2.val →
              io_fd i ≠ io_fd i2)
         ∧ st1.launched = st.launched ∧ st1.pipes = st.pipes
         ∧ st1.forkedPids = st.forkedPids ∧ st1.pgAssigns = st.pgAssigns
         ∧ st1.jpgid = st.jpgid ∧ st1.nextPid = st.nextPid
         ∧ st1.world = st.world) := by
  intro fuel
  induction fuel with
  | zero =>
    intro k hk acc st h1 h2 h3 h4 h5
    have hk3 : k = 3 := by omega
    subst hk3
    have hdrop : (List.finRange 3).drop 3 = [] :=
      List.drop_eq_nil_of_le (by simp)
    rw [hdrop]
    constructor
    · intro st' h
      simp [open_io_fds] at h
    · intro io_fd st1 h
      simp only [open_io_fds, Prod.mk.injEq, Option.some.injEq] at h
      obtain ⟨hio, hst⟩ := h
      subst hio
      subst hst
      exact ⟨h1, h2, h3, h5, rfl, rfl, rfl, rfl, rfl, rfl, rfl⟩
  | succ fuel ih =>
    intro k hk acc st h1 h2 h3 h4 h5
    have hlen : k < (List.finRange 3).length := by
      simp only [List.length_finRange]
      omega
    have hdrop : (List.finRange 3).drop k
        = (List.finRange 3)[k] :: (List.finRange 3).drop (k + 1) :=
      List.drop_eq_getElem_cons hlen
    have hival : ((List.finRange 3)[k] : Fin 3).val = k := by simp
    rw [hdrop]
    cases hpath : (io.getD ((List.finRange 3)[k] : Fin 3).val
        { path := none, oflag := 0 }).path with
    | none =>
      have hrec := ih (k + 1) (by omega) acc st h1 h2 h3
        (fun i hki => h4 i (by omega)) h5
      constructor
      · intro st' h
        simp only [open_io_fds, hpath] at h
        exact hrec.1 st' h
      · intro io_fd st1 h
        simp only [open_io_fds, hpath] at h
        exact hrec.2 io_fd st1 h
    | some pth =>
      by_cases hf : sys.openFails st.openCount = true
      · constructor
        · intro st' h
          simp only [open_io_fds, hpath, open_call, hf, if_true, Prod.mk.injEq] at h
          have hst := h.2
          rw [fd_cleanup_spec_n] at hst
          have htake : ndList acc ((List.finRange 3).take
              ((List.finRange 3)[k] : Fin 3).val) = ndList acc (List.finRange 3) := by
            rw [hival]
            exact ndList_take_of_default h4
          subst hst
          refine ⟨?_, rfl, rfl, rfl, rfl, rfl, rfl⟩
          simp only [htake]
          show st.openFds \ ndList acc (List.finRange 3) = {0, 1, 2}
          rw [h1, Finset.union_sdiff_right]
          exact Finset.sdiff_eq_self_iff_disjoint.mpr
            (std3_disjoint (fun a ha => (h2 a ha).1))
        · intro io_fd st1 h
          simp only [open_io_fds, hpath, open_call, hf, if_true, Prod.mk.injEq] at h
          exact Option.noConfusion h.1
      · have hdef : acc ((List.finRange 3)[k]) = ((List.finRange 3)[k] : Fin 3).val :=
          h4 _ (le_of_eq hival.symm)
        have hvne : st.nextFd ≠ ((List.finRange 3)[k] : Fin 3).val := by
          have hlt := ((List.finRange 3)[k] : Fin 3).isLt
          omega
        have hnd' : ndList (Function.update acc ((List.finRange 3)[k]) st.nextFd)
              (List.finRange 3)
            = insert st.nextFd (ndList acc (List.finRange 3)) :=
          ndList_update hdef hvne
        have hmem_lt : ∀ i2 : Fin 3, acc i2 ≠ i2.val → acc i2 < st.nextFd := by
          intro i2 hnd
          exact (h2 (acc i2) (mem_ndList.mpr ⟨i2, List.mem_finRange i2, hnd, rfl⟩)).2
        have hrec := ih (k + 1) (by omega)
          (Function.update acc ((List.finRange 3)[k]) st.nextFd)
          { st with openCount := st.openCount + 1, nextFd := st.nextFd + 1,
                    openFds := insert st.nextFd st.openFds }
          (by
            show insert st.nextFd st.openFds = {0, 1, 2} ∪ _
            rw [hnd', h1, Finset.union_insert])
          (by
            intro a ha
            rw [hnd'] at ha
            rcases Finset.mem_insert.mp ha with rfl | ha2
            · refine ⟨h3, ?_⟩
              show st.nextFd < st.nextFd + 1
              omega
            · obtain ⟨hb1, hb2⟩ := h2 a ha2
              refine ⟨hb1, ?_⟩
              show a < st.nextFd + 1
              omega)
          (by
            show 3 ≤ st.nextFd + 1
            omega)
          (by
            intro i2 hki
            have hne : i2 ≠ (List.finRange 3)[k] := by
              intro hc
              rw [hc] at hki
              omega
            rw [Function.update_noteq hne]
            exact h4 i2 (by omega))
          (by
            intro i1 i2 hne hnd1 hnd2
            by_cases e1 : i1 = (List.finRange 3)[k] <;>
              by_cases e2 : i2 = (List.finRange 3)[k]
            · exact absurd (e1.trans e2.symm) hne
            · subst e1
              rw [Function.update_same]
              rw [Function.update_noteq e2] at hnd2 ⊢
              have := hmem_lt i2 hnd2
              omega
            · subst e2
              rw [Function.update_same]
              rw [Function.update_noteq e1] at hnd1 ⊢
              have := hmem_lt i1 hnd1
              omega
            · rw [Function.update_noteq e1] at hnd1 ⊢
              rw [Function.update_noteq e2] at hnd2 ⊢
              exact h5 i1 i2 hne hnd1 hnd2)
        constructor
        · intro st' h
          simp only [open_io_fds, hpath, open_call, hf, Bool.false_eq_true,
            if_false] at h
          exact hrec.1 st' h
        · intro io_fd st1 h
          simp only [open_io_fds, hpath, open_call, hf, Bool.false_eq_true,
            if_false] at h
          exact hrec.2 io_fd st1 h

/-- C1: the success path of launch_job ends in `return 0`, so it does
not return the exit status of the job's last process (contradicting the
comment right above the C function): on the single-process job `cd /nx`,
whose builtin completes with exit code 1, launch_job returns 0. -/
theorem claim_C1_launch_job_returns_zero_not_last_exit_code :
    (launch_job sysOK builtinTable jobCd wWorld).1 = LaunchOut.ret 0
    ∧ ((launch_job sysOK builtinTable jobCd wWorld).2.launched.getD 0
        dummyProc).exit_code = 1
    ∧ ((launch_job sysOK builtinTable jobCd wWorld).2.launched.getD 0
        dummyProc).completed = true
    ∧ (launch_job sysOK builtinTable jobCd wWorld).2.launched.length = 1 :=
  ⟨by decide, by decide, by decide, by decide⟩

/-- open_go at the entry state of launch_job: starting from a default
io_fd array and the shell's three standard descriptors. -/
theorem open_io_fds_entry_spec (sys : Sys) (j : Job) (w : World) :
    (∀ st', open_io_fds sys j.io (List.finRange 3) defFds (launch_init j w)
          = (none, st') →
       st'.openFds = {0, 1, 2}
       ∧ st'.launched = ([] : List MProc) ∧ st'.pipes = ([] : List (Nat × Nat))
       ∧ st'.forkedPids = ([] : List Nat) ∧ st'.pgAssigns = ([] : List (Nat × Nat × Nat))
       ∧ st'.jpgid = j.pgid
       ∧ st'.world = { w with errs := w.errs ++ [sys.strerror] })
    ∧ (∀ io_fd st1, open_io_fds sys j.io (List.finRange 3) defFds (launch_init j w)
          = (some io_fd, st1) →
       st1.openFds = {0, 1, 2} ∪ ndList io_fd (List.finRange 3)
       ∧ (∀ a ∈ ndList io_fd (List.finRange 3), 3 ≤ a ∧ a < st1.nextFd)
       ∧ 3 ≤ st1.nextFd
       ∧ (∀ i i2 : Fin 3, i ≠ i2 → io_fd i ≠ i.val → io_fd i2 ≠ i2.val →
            io_fd i ≠ io_fd i2)
       ∧ st1.launched = ([] : List MProc) ∧ st1.pipes = ([] : List (Nat × Nat))
       ∧ st1.forkedPids = ([] : List Nat) ∧ st1.pgAssigns = ([] : List (Nat × Nat × Nat))
       ∧ st1.jpgid = j.pgid ∧ st1.nextPid = 1001
       ∧ st1.world = w) := by
  have hnd0 : ndList defFds (List.finRange 3) = ∅ := by decide
  have h := open_go sys j.io 3 0 rfl defFds (launch_init j w)
    (by
      show ({0, 1, 2} : Finset Nat) = {0, 1, 2} ∪ ndList defFds (List.finRange 3)
      rw [hnd0, Finset.union_empty])
    (by
      simp [hnd0])
    (le_refl 3)
    (fun i _ => rfl)
    (fun i i2 _ hnd => absurd rfl hnd)
  rw [List.drop_zero] at h
  exact h

/-- C4: if opening any of the job's redirection paths fails, launch_job
closes every descriptor it opened earlier in that same call (the shell is
back to exactly descriptors 0,1,2), returns M_FAILED_IO with the OS error
string reported, and no process of the job has been forked, dispatched as
a builtin, or given a pipe. -/
theorem claim_C4_redirection_open_all_or_nothing (sys : Sys)
    (table : List (String × Builtin)) (j : Job) (w : World)
    (h : (open_io_fds sys j.io (List.finRange 3) defFds (launch_init j w)).1
      = none) :
    (launch_job sys table j w).1 = LaunchOut.ret M_FAILED_IO
    ∧ (launch_job sys table j w).2.openFds = {0, 1, 2}
    ∧ (launch_job sys table j w).2.launched = []
    ∧ (launch_job sys table j w).2.forkedPids = []
    ∧ (launch_job sys table j w).2.pipes = []
    ∧ (launch_job sys table j w).2.world.errs = w.errs ++ [sys.strerror] := by
  rcases hopen : open_io_fds sys j.io (List.finRange 3) defFds (launch_init j w)
    with ⟨oio, stF⟩
  rw [hopen] at h
  simp only at h
  subst h
  obtain ⟨ho, hl, hp, hfk, hpg, hj, hw⟩ := (open_io_fds_entry_spec sys j w).1 stF hopen
  have hlj : launch_job sys table j w = (.ret M_FAILED_IO, stF) := by
    unfold launch_job
    rw [hopen]
  rw [hlj]
  exact ⟨rfl, ho, hl, hfk, hp, by rw [hw]⟩

/-- Witness for C4: stdin and stdout both redirected, the second open
fails; the first opened descriptor (3) is closed again. -/
theorem claim_C4_witness :
    (open_io_fds sysOpenFail1 jobInOut.io (List.finRange 3) defFds
        (launch_init jobInOut wWorld)).1 = none
    ∧ (launch_job sysOpenFail1 builtinTable jobInOut wWorld).1
        = LaunchOut.ret M_FAILED_IO
    ∧ (launch_job sysOpenFail1 builtinTable jobInOut wWorld).2.openFds
        = {0, 1, 2} :=
  ⟨by decide,
   (claim_C4_redirection_open_all_or_nothing sysOpenFail1 builtinTable jobInOut
      wWorld (by decide)).1,
   (claim_C4_redirection_open_all_or_nothing sysOpenFail1 builtinTable jobInOut
      wWorld (by decide)).2.1⟩

/-- Witness for the amended C5 at the concrete failing-fork run. -/
theorem claim_C5_witness :
    (launch_job sysForkFail1 builtinTable jobPipe3 wWorld).1
        = LaunchOut.ret M_FAILED_EXEC
    ∧ (M_FAILED_EXEC : Int) ≠ 0
    ∧ M_FAILED_EXEC ≠ M_FAILED_IO
    ∧ M_FAILED_EXEC = M_FAILED_EXEC :=
  ⟨by decide, by decide, by decide,
   (claim_C5_fork_failure_aborts sysForkFail1 builtinTable jobPipe3 wWorld
      M_FAILED_EXEC (by decide) (by decide) (by decide)).1⟩

theorem set_last_io_length (io1 io2 : Nat) :
    ∀ l : List MProc, (set_last_io io1 io2 l).length = l.length := by
  intro l
  induction l with
  | nil => rfl
  | cons p rest ih =>
    cases rest with
    | nil => rfl
    | cons q rest2 =>
      simp only [set_last_io, List.length_cons]
      rw [ih]
      simp

theorem pipeWired_index :
    ∀ (L : List MProc) (P : List (Nat × Nat)), pipeWired L P →
      ∀ i : Nat, i + 1 < L.length →
        (P.getD i (0, 0)).2 = (L.getD i dummyProc).fds 1
        ∧ (P.getD i (0, 0)).1 = (L.getD (i + 1) dummyProc).fds 0 := by
  intro L
  induction L with
  | nil =>
    intro P hw i hi
    simp at hi
  | cons p L ih =>
    intro P hw i hi
    cases L with
    | nil => simp at hi
    | cons q L2 =>
      cases P with
      | nil => exact absurd hw (by simp [pipeWired])
      | cons rw2 P2 =>
        obtain ⟨h1, h2, h3⟩ := hw
        cases i with
        | zero => exact ⟨by simpa using h1.symm, by simpa using h2.symm⟩
        | succ i2 =>
          have hrec := ih P2 h3 i2 (by simpa using hi)
          simpa using hrec

/-- A successful run of the launch loop appends, for a list of n
remaining processes, exactly n launched records and n-1 pipes, wired
write-end-to-stdout and read-end-to-next-stdin in order, with the
pending stdin descriptor landing in the first record. -/
theorem launch_loop_pipes_spec (sys : Sys) (table : List (String × Builtin))
    (bkg : Bool) :
    ∀ (ps : List MProc) (carry : Option Nat) (st st' : LState),
      launch_loop sys table bkg carry ps st = (.ret 0, st') →
      ∃ L P, st'.launched = st.launched ++ L ∧ st'.pipes = st.pipes ++ P
        ∧ L.length = ps.length ∧ P.length = ps.length - 1
        ∧ pipeWired L P
        ∧ (∀ v, carry = some v → ps ≠ [] →
            ∃ q L2, L = q :: L2 ∧ q.fds 0 = v) := by
  intro ps
  induction ps with
  | nil =>
    intro carry st st' h
    simp only [launch_loop, Prod.mk.injEq] at h
    refine ⟨[], [], by simp [← h.2], by simp [← h.2], rfl, rfl, trivial,
      fun v hv hne => absurd rfl hne⟩
  | cons p rest ih =>
    intro carry st st' h
    cases rest with
    | nil =>
      simp only [launch_loop] at h
      cases hs : launch_one sys table bkg (apply_carry carry p) st with
      | ok st2 =>
        rw [hs] at h
        simp only [Prod.mk.injEq] at h
        obtain ⟨-, h2⟩ := h
        subst h2
        obtain ⟨p', hfds, hl, hp, -, -, -⟩ := launch_one_ok_spec _ _ _ _ _ _ hs
        refine ⟨[p'], [], hl, by simp [hp], rfl, rfl, trivial, ?_⟩
        intro v hv hne
        refine ⟨p', [], rfl, ?_⟩
        rw [hfds, hv]
        show (Function.update p.fds 0 v) 0 = v
        exact Function.update_same 0 v p.fds
      | forkFailed st2 =>
        rw [hs] at h
        simp only [Prod.mk.injEq, LaunchOut.ret.injEq] at h
        exact absurd h.1 (by decide)
      | shellExited st2 =>
        rw [hs] at h
        simp only [Prod.mk.injEq] at h
        exact LaunchOut.noConfusion h.1
    | cons q rest2 =>
      simp only [launch_loop] at h
      cases hs : launch_one sys table bkg
          { apply_carry carry p with
            fds := Function.update (apply_carry carry p).fds 1 (pipe_call st).1.2 }
          (pipe_call st).2 with
      | ok st2 =>
        rw [hs] at h
        obtain ⟨L, P, hl, hp, hll, hpl, hw, hhead⟩ :=
          ih (some (pipe_call st).1.1) st2 st' h
        obtain ⟨p', hfds, hl1, hp1, -, -, -⟩ := launch_one_ok_spec _ _ _ _ _ _ hs
        have hpcl : (pipe_call st).2.launched = st.launched := rfl
        have hpcp : (pipe_call st).2.pipes
            = st.pipes ++ [(st.nextFd, st.nextFd + 1)] := rfl
        obtain ⟨qh, L2, hLeq, hq0⟩ := hhead (pipe_call st).1.1 rfl (by simp)
        refine ⟨p' :: L, (st.nextFd, st.nextFd + 1) :: P, ?_, ?_, ?_, ?_, ?_, ?_⟩
        · rw [hl, hl1, hpcl]
          simp
        · rw [hp, hp1, hpcp]
          simp
        · simp [hll]
        · simp only [List.length_cons, hpl]
          simp
        · rw [hLeq]
          rw [hLeq] at hw
          refine ⟨?_, hq0, hw⟩
          rw [hfds]
          show (Function.update (apply_carry carry p).fds 1 (pipe_call st).1.2) 1
              = st.nextFd + 1
          exact Function.update_same 1 _ _
        · intro v hv hne
          refine ⟨p', L, rfl, ?_⟩
          rw [hfds, hv]
          show (Function.update (Function.update p.fds 0 v) 1 (pipe_call st).1.2) 0 = v
          rw [Function.update_noteq (by decide)]
          exact Function.update_same 0 v p.fds
      | forkFailed st2 =>
        rw [hs] at h
        simp only [Prod.mk.injEq, LaunchOut.ret.injEq] at h
        exact absurd h.1 (by decide)
      | shellExited st2 =>
        rw [hs] at h
        simp only [Prod.mk.injEq] at h
        exact LaunchOut.noConfusion h.1

/-- A successful launch_job call decomposes into a successful
redirection-open phase and a successful loop run, and the final state's
launch bookkeeping is that of the loop's final state. -/
theorem launch_job_success_decomp (sys : Sys) (table : List (String × Builtin))
    (j : Job) (w : World) (hne : j.procs ≠ [])
    (h : (launch_job sys table j w).1 = .ret 0) :
    ∃ io_fd st1 st2,
      open_io_fds sys j.io (List.finRange 3) defFds (launch_init j w)
          = (some io_fd, st1)
      ∧ launch_loop sys table j.bkg (some (io_fd 0))
          (set_last_io (io_fd 1) (io_fd 2) j.procs) st1 = (.ret 0, st2)
      ∧ (launch_job sys table j w).2.launched = st2.launched
      ∧ (launch_job sys table j w).2.pipes = st2.pipes
      ∧ (launch_job sys table j w).2.forkedPids = st2.forkedPids
      ∧ (launch_job sys table j w).2.pgAssigns = st2.pgAssigns
      ∧ (launch_job sys table j w).2.jpgid = st2.jpgid
      ∧ (launch_job sys table j w).2.openFds = st2.openFds := by
  have hju : launch_job sys table j w
      = match open_io_fds sys j.io (List.finRange 3) defFds (launch_init j w) with
        | (none, st1) => (.ret M_FAILED_IO, st1)
        | (some io_fd, st1) =>
          match j.procs with
          | [] => (.ret 0, st1)
          | _ :: _ =>
            launch_finish sys j
              (launch_loop sys table j.bkg (some (io_fd 0))
                (set_last_io (io_fd 1) (io_fd 2) j.procs) st1) := rfl
  rcases hopen : open_io_fds sys j.io (List.finRange 3) defFds (launch_init j w)
    with ⟨oio, st1⟩
  rw [hopen] at hju
  cases oio with
  | none =>
    rw [hju] at h
    simp only [LaunchOut.ret.injEq] at h
    exact absurd h.symm (by decide)
  | some io_fd =>
    cases hp : j.procs with
    | nil => exact absurd hp hne
    | cons p ps =>
      rw [hp] at hju
      simp only at hju
      rcases hloop : launch_loop sys table j.bkg (some (io_fd 0))
          (set_last_io (io_fd 1) (io_fd 2) (p :: ps)) st1 with ⟨o, st2⟩
      rw [hloop] at hju
      have hfin := launch_finish_fields sys j (o, st2)
      have ho : o = .ret 0 := by
        rw [hju] at h
        rw [hfin.1] at h
        exact h
      subst ho
      refine ⟨io_fd, st1, st2, rfl, hloop,
        ?_, ?_, ?_, ?_, ?_, ?_⟩ <;>
        rw [hju] <;>
        simp [hfin.2.1, hfin.2.2.1, hfin.2.2.2.1, hfin.2.2.2.2.1,
          hfin.2.2.2.2.2.1, hfin.2.2.2.2.2.2]

/-- C2: a job of N processes launched successfully gets exactly N-1
pipes, one per adjacent pair in order; pipe i's write end is launched
process i's stdout descriptor `fds[1]` and its read end is launched
process i+1's stdin descriptor `fds[0]`; the last process gets no new
pipe. -/
theorem claim_C2_pipes_adjacent_wiring (sys : Sys)
    (table : List (String × Builtin)) (j : Job) (w : World)
    (hne : j.procs ≠ [])
    (h : (launch_job sys table j w).1 = .ret 0) :
    (launch_job sys table j w).2.pipes.length = j.procs.length - 1
    ∧ (launch_job sys table j w).2.launched.length = j.procs.length
    ∧ ∀ i : Nat, i + 1 < j.procs.length →
        ((launch_job sys table j w).2.pipes.getD i (0, 0)).2
            = ((launch_job sys table j w).2.launched.getD i dummyProc).fds 1
        ∧ ((launch_job sys table j w).2.pipes.getD i (0, 0)).1
            = ((launch_job sys table j w).2.launched.getD (i + 1) dummyProc).fds 0 := by
  obtain ⟨io_fd, st1, st2, hopen, hloop, hlau, hpip, -, -, -, -⟩ :=
    launch_job_success_decomp sys table j w hne h
  obtain ⟨-, -, -, -, he1, he2, -, -, -, -, -⟩ :=
    (open_io_fds_entry_spec sys j w).2 io_fd st1 hopen
  obtain ⟨L, P, hL, hP, hLl, hPl, hw, -⟩ :=
    launch_loop_pipes_spec sys table j.bkg _ _ _ _ hloop
  rw [he1] at hL
  rw [he2] at hP
  simp only [List.nil_append] at hL hP
  have hlen : (set_last_io (io_fd 1) (io_fd 2) j.procs).length = j.procs.length :=
    set_last_io_length _ _ _
  rw [hlen] at hLl hPl
  refine ⟨by rw [hpip, hP, hPl], by rw [hlau, hL, hLl], ?_⟩
  intro i hi
  have := pipeWired_index L P hw i (by rw [hLl]; exact hi)
  rw [hpip, hlau, hL, hP]
  exact this

/-- Witness for C2: the three-stage pipeline launches with pipes
(4,5) and (6,7) wired 5 to stage 0 stdout, 4 to stage 1 stdin, 7 to
stage 1 stdout, 6 to stage 2 stdin. -/
theorem claim_C2_witness :
    jobPipe3.procs ≠ []
    ∧ (launch_job sysOK builtinTable jobPipe3 wWorld).1 = LaunchOut.ret 0
    ∧ (launch_job sysOK builtinTable jobPipe3 wWorld).2.pipes.length
        = jobPipe3.procs.length - 1 :=
  ⟨List.cons_ne_nil _ _, by decide,
   (claim_C2_pipes_adjacent_wiring sysOK builtinTable jobPipe3 wWorld
      (List.cons_ne_nil _ _) (by decide)).1⟩

/-- Process-group bookkeeping of the launch loop in interactive mode:
every forked pid gets exactly one Set_proc_group record (parent side and
child side); if the job already has a group, all of them join it and the
job's pgid is unchanged; if the job's pgid is still 0, all of them join
the group of the first pid forked here, which also becomes the job's
pgid. -/
theorem launch_loop_pg_spec (sys : Sys) (table : List (String × Builtin))
    (bkg : Bool) (hint : sys.interactive = true) :
    ∀ (ps : List MProc) (carry : Option Nat) (st : LState),
      0 < st.nextPid →
      ∃ new newA,
        (launch_loop sys table bkg carry ps st).2.forkedPids
            = st.forkedPids ++ new
        ∧ (launch_loop sys table bkg carry ps st).2.pgAssigns
            = st.pgAssigns ++ newA
        ∧ newA.map Prod.fst = new
        ∧ (st.jpgid ≠ 0 →
            (∀ e ∈ newA, e.2.1 = st.jpgid ∧ e.2.2 = st.jpgid)
            ∧ (launch_loop sys table bkg carry ps st).2.jpgid = st.jpgid)
        ∧ (st.jpgid = 0 →
            (∀ e ∈ newA, e.2.1 = new.headI ∧ e.2.2 = new.headI)
            ∧ (launch_loop sys table bkg carry ps st).2.jpgid
                = (if new = [] then 0 else new.headI)) := by
  intro ps
  induction ps with
  | nil =>
    intro carry st hnp
    refine ⟨[], [], by simp [launch_loop], by simp [launch_loop], rfl,
      fun hj => ⟨by simp, by simp [launch_loop]⟩,
      fun hj => ⟨by simp, by simp [launch_loop, hj]⟩⟩
  | cons p rest ih =>
    intro carry st hnp
    cases rest with
    | nil =>
      cases hs : launch_one sys table bkg (apply_carry carry p) st with
      | ok st2 =>
        have heq : launch_loop sys table bkg carry [p] st = (.ret 0, st2) := by
          simp only [launch_loop]
          rw [hs]
        rw [heq]
        obtain ⟨p', -, -, -, -, -, hfork⟩ := launch_one_ok_spec _ _ _ _ _ _ hs
        rcases hfork with ⟨hf, hpg, hjp, -⟩ | ⟨hf, -, hpgi, -⟩
        · exact ⟨[], [], by simp [hf], by simp [hpg], rfl,
            fun hj => ⟨by simp, by simp [hjp]⟩,
            fun hj => ⟨by simp, by simp [hjp, hj]⟩⟩
        · obtain ⟨hpg, hjp⟩ := hpgi hint
          refine ⟨[st.nextPid],
            [(st.nextPid, set_proc_group_parent st.nextPid st.jpgid,
              set_proc_group_child st.nextPid st.jpgid)],
            by simp [hf], by simp [hpg], rfl, ?_, ?_⟩
          · intro hj
            refine ⟨?_, ?_⟩
            · intro e he
              simp only [List.mem_singleton] at he
              subst he
              simp [set_proc_group_parent, set_proc_group_child, hj]
            · simp [hjp, set_proc_group_parent, hj]
          · intro hj
            refine ⟨?_, ?_⟩
            · intro e he
              simp only [List.mem_singleton] at he
              subst he
              simp [set_proc_group_parent, set_proc_group_child, hj]
            · simp [hjp, set_proc_group_parent, hj]
      | forkFailed st2 =>
        have heq : launch_loop sys table bkg carry [p] st
            = (.ret M_FAILED_EXEC, st2) := by
          simp only [launch_loop]
          rw [hs]
        rw [heq]
        obtain ⟨-, -, hf, hpg, hjp, -⟩ := launch_one_forkFailed_spec _ _ _ _ _ _ hs
        exact ⟨[], [], by simp [hf], by simp [hpg], rfl,
          fun hj => ⟨by simp, by simp [hjp]⟩,
          fun hj => ⟨by simp, by simp [hjp, hj]⟩⟩
      | shellExited st2 =>
        have heq : launch_loop sys table bkg carry [p] st = (.exited, st2) := by
          simp only [launch_loop]
          rw [hs]
        rw [heq]
        obtain ⟨-, -, hf, hpg, hjp⟩ := launch_one_shellExited_spec _ _ _ _ _ _ hs
        exact ⟨[], [], by simp [hf], by simp [hpg], rfl,
          fun hj => ⟨by simp, by simp [hjp]⟩,
          fun hj => ⟨by simp, by simp [hjp, hj]⟩⟩
    | cons q rest2 =>
      cases hs : launch_one sys table bkg
          { apply_carry carry p with
            fds := Function.update (apply_carry carry p).fds 1 (pipe_call st).1.2 }
          (pipe_call st).2 with
      | ok st2 =>
        have heq : launch_loop sys table bkg carry (p :: q :: rest2) st
            = launch_loop sys table bkg (some (pipe_call st).1.1) (q :: rest2) st2 := by
          simp only [launch_loop]
          rw [hs]
        rw [heq]
        obtain ⟨p', -, -, -, -, -, hfork⟩ := launch_one_ok_spec _ _ _ _ _ _ hs
        have hpcf : (pipe_call st).2.forkedPids = st.forkedPids := rfl
        have hpcg : (pipe_call st).2.pgAssigns = st.pgAssigns := rfl
        have hpcj : (pipe_call st).2.jpgid = st.jpgid := rfl
        have hpcn : (pipe_call st).2.nextPid = st.nextPid := rfl
        rcases hfork with ⟨hf, hpg, hjp, hnp2⟩ | ⟨hf, hnp2, hpgi, -⟩
        · simp only [hpcf, hpcg, hpcj, hpcn] at hf hpg hjp hnp2
          obtain ⟨newT, newAT, ht1, ht2, ht3, ht4, ht5⟩ :=
            ih (some (pipe_call st).1.1) st2 (by rw [hnp2]; exact hnp)
          refine ⟨newT, newAT, ?_, ?_, ht3, ?_, ?_⟩
          · rw [ht1, hf]
          · rw [ht2, hpg]
          · intro hj
            obtain ⟨ha, hb⟩ := ht4 (by rw [hjp]; exact hj)
            rw [hjp] at ha hb
            exact ⟨ha, hb⟩
          · intro hj
            exact ht5 (by rw [hjp]; exact hj)
        · obtain ⟨hpg, hjp⟩ := hpgi hint
          simp only [hpcf, hpcg, hpcj, hpcn] at hf hpg hjp hnp2
          obtain ⟨newT, newAT, ht1, ht2, ht3, ht4, ht5⟩ :=
            ih (some (pipe_call st).1.1) st2 (by rw [hnp2]; omega)
          by_cases hj : st.jpgid = 0
          · have hsp : set_proc_group_parent st.nextPid st.jpgid = st.nextPid := by
              simp [set_proc_group_parent, hj]
            have hsc : set_proc_group_child st.nextPid st.jpgid = st.nextPid := by
              simp [set_proc_group_child, hj]
            have hj2 : st2.jpgid ≠ 0 := by
              rw [hjp, hsp]
              omega
            obtain ⟨ha, hb⟩ := ht4 hj2
            rw [hjp, hsp] at ha hb
            refine ⟨st.nextPid :: newT,
              (st.nextPid, set_proc_group_parent st.nextPid st.jpgid,
                set_proc_group_child st.nextPid st.jpgid) :: newAT,
              ?_, ?_, ?_, ?_, ?_⟩
            · rw [ht1, hf]
              simp
            · rw [ht2, hpg]
              simp
            · simp [ht3]
            · intro hjc
              exact absurd hj hjc
            · intro hjz
              refine ⟨?_, ?_⟩
              · intro e he
                rcases List.mem_cons.mp he with rfl | he2
                · simp [hsp, hsc]
                · have := ha e he2
                  simpa using this
              · rw [hb]
                simp
          · have hsp : set_proc_group_parent st.nextPid st.jpgid = st.jpgid := by
              simp [set_proc_group_parent, hj]
            have hsc : set_proc_group_child st.nextPid st.jpgid = st.jpgid := by
              simp [set_proc_group_child, hj]
            have hj2 : st2.jpgid ≠ 0 := by
              rw [hjp, hsp]
              exact hj
            obtain ⟨ha, hb⟩ := ht4 hj2
            rw [hjp, hsp] at ha hb
            refine ⟨st.nextPid :: newT,
              (st.nextPid, set_proc_group_parent st.nextPid st.jpgid,
                set_proc_group_child st.nextPid st.jpgid) :: newAT,
              ?_, ?_, ?_, ?_, ?_⟩
            · rw [ht1, hf]
              simp
            · rw [ht2, hpg]
              simp
            · simp [ht3]
            · intro hjz
              refine ⟨?_, hb⟩
              intro e he
              rcases List.mem_cons.mp he with rfl | he2
              · simp [hsp, hsc]
              · exact ha e he2
            · intro hjc
              exact absurd hjc hj
      | forkFailed st2 =>
        have heq : launch_loop sys table bkg carry (p :: q :: rest2) st
            = (.ret M_FAILED_EXEC, st2) := by
          simp only [launch_loop]
          rw [hs]
        rw [heq]
        obtain ⟨-, -, hf, hpg, hjp, -⟩ := launch_one_forkFailed_spec _ _ _ _ _ _ hs
        exact ⟨[], [], by simp [hf, pipe_call], by simp [hpg, pipe_call], rfl,
          fun hj => ⟨by simp, by simp [hjp, pipe_call]⟩,
          fun hj => ⟨by simp, by simp [hjp, pipe_call, hj]⟩⟩
      | shellExited st2 =>
        have heq : launch_loop sys table bkg carry (p :: q :: rest2) st
            = (.exited, st2) := by
          simp only [launch_loop]
          rw [hs]
        rw [heq]
        obtain ⟨-, -, hf, hpg, hjp⟩ := launch_one_shellExited_spec _ _ _ _ _ _ hs
        exact ⟨[], [], by simp [hf, pipe_call], by simp [hpg, pipe_call], rfl,
          fun hj => ⟨by simp, by simp [hjp, pipe_call]⟩,
          fun hj => ⟨by simp, by simp [hjp, pipe_call, hj]⟩⟩


/-- C6: for an interactive job with pgid 0, every forked process of a
completed launch received its Set_proc_group assignment from both the
parent and the child, all assignments name one common group — the pid of
the job's first-created process — and the job's pgid field ends up 0 when
nothing was forked and equal to that first pid otherwise. -/
theorem claim_C6_process_group_invariant (sys : Sys)
    (table : List (String × Builtin)) (j : Job) (w : World)
    (hint : sys.interactive = true) (hpg : j.pgid = 0) (hne : j.procs ≠ [])
    (h : (launch_job sys table j w).1 = .ret 0) :
    (launch_job sys table j w).2.pgAssigns.map Prod.fst
        = (launch_job sys table j w).2.forkedPids
    ∧ (∀ e ∈ (launch_job sys table j w).2.pgAssigns,
        e.2.1 = (launch_job sys table j w).2.forkedPids.headI
        ∧ e.2.2 = (launch_job sys table j w).2.forkedPids.headI)
    ∧ (launch_job sys table j w).2.jpgid
        = (if (launch_job sys table j w).2.forkedPids = [] then 0
           else (launch_job sys table j w).2.forkedPids.headI) := by
  obtain ⟨io_fd, st1, st2, hopen, hloop, -, -, hjf, hjpg, hjj, -⟩ :=
    launch_job_success_decomp sys table j w hne h
  obtain ⟨-, -, -, -, -, -, he1, he2, he3, he4, -⟩ :=
    (open_io_fds_entry_spec sys j w).2 io_fd st1 hopen
  obtain ⟨new, newA, h1, h2, h3, -, h5⟩ :=
    launch_loop_pg_spec sys table j.bkg hint
      (set_last_io (io_fd 1) (io_fd 2) j.procs) (some (io_fd 0)) st1
      (by rw [he4]; omega)
  rw [hloop] at h1 h2
  simp only at h1 h2
  rw [he1, List.nil_append] at h1
  rw [he2, List.nil_append] at h2
  obtain ⟨ha, hb⟩ := h5 (by rw [he3, hpg])
  rw [hloop] at hb
  simp only at hb
  refine ⟨?_, ?_, ?_⟩
  · rw [hjpg, hjf, h1, h2, h3]
  · intro e he
    rw [hjpg, h2] at he
    rw [hjf, h1]
    exact ha e he
  · rw [hjj, hjf, h1, hb]

/-- Witness for C6 on the interactive three-stage pipeline: pids
1001, 1002, 1003 all assigned to group 1001. -/
theorem claim_C6_witness :
    sysOK.interactive = true
    ∧ jobPipe3.pgid = 0
    ∧ (launch_job sysOK builtinTable jobPipe3 wWorld).1 = LaunchOut.ret 0
    ∧ (launch_job sysOK builtinTable jobPipe3 wWorld).2.pgAssigns.map Prod.fst
        = (launch_job sysOK builtinTable jobPipe3 wWorld).2.forkedPids :=
  ⟨by decide, by decide, by decide,
   (claim_C6_process_group_invariant sysOK builtinTable jobPipe3 wWorld
      (by decide) (by decide) (List.cons_ne_nil _ _) (by decide)).1⟩

/-- A binding returned by the filtered lookup satisfies the filter. -/
theorem find_node_filter (key : String) (filt : Builtin → Bool) :
    ∀ (t : List (String × Builtin)) (b : Builtin),
      find_node key filt t = some b → filt b = true := by
  intro t
  induction t with
  | nil =>
    intro b h
    cases h
  | cons kv rest ih =>
    intro b h
    by_cases hc : kv.1 = key ∧ filt kv.2
    · rw [find_node, if_pos hc] at h
      rw [← Option.some.inj h]
      exact hc.2
    · rw [find_node, if_neg hc] at h
      exact ih b h

/-- When a command-kind builtin binding is found and its body does not
terminate the shell, launch_one runs it in-process: the process record is
appended completed, with its exit code, and the whole fd table is then
cleaned up. -/
theorem launch_one_builtin_eq (sys : Sys) (table : List (String × Builtin))
    (bkg : Bool) (p : MProc) (st : LState) (b : Builtin)
    (hfn : find_node (p.argv.getD 0 "") filter_command table = some b)
    (hex : (b.cmd p st.world).2.exited = none) :
    launch_one sys table bkg p st
      = .ok (fd_cleanup p.fds 3
          { st with world := (b.cmd p st.world).2,
                    launched := st.launched ++
                      [{ p with exit_code := (b.cmd p st.world).1,
                                completed := true }] }) := by
  unfold launch_one
  rw [hfn]
  simp only
  rw [hex]

/-- When no command-kind binding is found, launch_one attempts a fork,
whatever the outcome. -/
theorem launch_one_forkCount (sys : Sys) (table : List (String × Builtin))
    (bkg : Bool) (p : MProc) (st : LState)
    (hfn : find_node (p.argv.getD 0 "") filter_command table = none) :
    (launch_one sys table bkg p st).state.forkCount = st.forkCount + 1 := by
  unfold launch_one
  rw [hfn]
  by_cases hff : sys.forkFails st.forkCount = true
  · simp only [fork_call, hff, if_true, StepOut.state]
  · simp only [fork_call, hff, Bool.false_eq_true, if_false, StepOut.state]
    cases hint : sys.interactive <;>
      simp only [hint, Bool.false_eq_true, if_false, if_true] <;>
      rw [fd_cleanup_spec] <;> rfl

/-- When a command-kind binding is found, launch_one never forks. -/
theorem launch_one_builtin_no_fork (sys : Sys) (table : List (String × Builtin))
    (bkg : Bool) (p : MProc) (st : LState) (b : Builtin)
    (hfn : find_node (p.argv.getD 0 "") filter_command table = some b) :
    (launch_one sys table bkg p st).state.forkCount = st.forkCount := by
  unfold launch_one
  rw [hfn]
  simp only
  cases hex : (b.cmd p st.world).2.exited with
  | some c => rfl
  | none =>
    simp only [StepOut.state]
    rw [fd_cleanup_spec]

/-- When no binding is found and the fork succeeds, the forked pid is
recorded on the process and in the forked list. -/
theorem launch_one_fork_ok (sys : Sys) (table : List (String × Builtin))
    (bkg : Bool) (p : MProc) (st : LState)
    (hfn : find_node (p.argv.getD 0 "") filter_command table = none)
    (hff : sys.forkFails st.forkCount = false) :
    ∃ st₂, launch_one sys table bkg p st = .ok st₂
      ∧ st₂.forkedPids = st.forkedPids ++ [st.nextPid]
      ∧ st₂.launched = st.launched ++ [{ p with pid := st.nextPid }]
      ∧ st₂.children = st.children ++ [exec_proc sys p] := by
  unfold launch_one
  rw [hfn]
  simp only [fork_call, hff, Bool.false_eq_true, if_false]
  cases hint : sys.interactive with
  | true =>
    simp only [if_true]
    refine ⟨_, rfl, ?_, ?_, ?_⟩ <;> rw [fd_cleanup_spec] <;> rfl
  | false =>
    simp only [Bool.false_eq_true, if_false]
    refine ⟨_, rfl, ?_, ?_, ?_⟩ <;> rw [fd_cleanup_spec] <;> rfl

/-- C3: for each process, launch_job looks up argv[0] in the builtin
table filtered to command-kind bindings only (a non-command binding under
the same name is skipped); if a binding is found the builtin runs
synchronously in-process on the process record as-is — no fork happens —
and the process is marked completed with the builtin's return value; if
no binding is found the process is forked. -/
theorem claim_C3_builtin_dispatch (sys : Sys) (table : List (String × Builtin))
    (bkg : Bool) (p : MProc) (st : LState) :
    (∀ b, find_node (p.argv.getD 0 "") filter_command table = some b →
       b.type = BType.CMD
       ∧ (launch_one sys table bkg p st).state.forkCount = st.forkCount
       ∧ ((b.cmd p st.world).2.exited = none →
           ∃ st₂, launch_one sys table bkg p st = .ok st₂
             ∧ st₂.launched = st.launched ++
                 [{ p with exit_code := (b.cmd p st.world).1, completed := true }]
             ∧ st₂.forkedPids = st.forkedPids))
    ∧ (find_node (p.argv.getD 0 "") filter_command table = none →
       (launch_one sys table bkg p st).state.forkCount = st.forkCount + 1
       ∧ (sys.forkFails st.forkCount = false →
           ∃ st₂, launch_one sys table bkg p st = .ok st₂
             ∧ st₂.forkedPids = st.forkedPids ++ [st.nextPid]
             ∧ st₂.launched = st.launched ++ [{ p with pid := st.nextPid }]))
    ∧ (∀ (k : String) (bb : Builtin) (t2 : List (String × Builtin)),
        bb.type ≠ BType.CMD →
        find_node k filter_command ((k, bb) :: t2)
          = find_node k filter_command t2) := by
  refine ⟨?_, ?_, ?_⟩
  · intro b hfn
    have hfilt : filter_command b = true := find_node_filter _ _ table b hfn
    have hcmd : b.type = BType.CMD := by
      simpa [filter_command] using hfilt
    refine ⟨hcmd, launch_one_builtin_no_fork sys table bkg p st b hfn, ?_⟩
    intro hex
    refine ⟨_, launch_one_builtin_eq sys table bkg p st b hfn hex, ?_, ?_⟩ <;>
      rw [fd_cleanup_spec] <;> rfl
  · intro hfn
    refine ⟨launch_one_forkCount sys table bkg p st hfn, ?_⟩
    intro hff
    obtain ⟨st₂, he, hf, hl, -⟩ := launch_one_fork_ok sys table bkg p st hfn hff
    exact ⟨st₂, he, hf, hl⟩
  · intro k bb t2 hbb
    rw [find_node, if_neg]
    rintro ⟨-, hfilt⟩
    exact hbb (by simpa [filter_command] using hfilt)

/-- Witness for C3: `help` is found as a command-kind builtin and its
launch does not fork. -/
theorem claim_C3_witness :
    find_node ((mkProc ["help"]).argv.getD 0 "") filter_command builtinTable
        = some ⟨BType.CMD, m_help⟩
    ∧ (Builtin.mk BType.CMD m_help).type = BType.CMD
    ∧ (launch_one sysOK builtinTable false (mkProc ["help"])
          (launch_init jobCd wWorld)).state.forkCount
        = (launch_init jobCd wWorld).forkCount :=
  ⟨rfl,
   ((claim_C3_builtin_dispatch sysOK builtinTable false (mkProc ["help"])
      (launch_init jobCd wWorld)).1 ⟨BType.CMD, m_help⟩ rfl).1,
   ((claim_C3_builtin_dispatch sysOK builtinTable false (mkProc ["help"])
      (launch_init jobCd wWorld)).1 ⟨BType.CMD, m_help⟩ rfl).2.1⟩

theorem ndFds_default {p : MProc} (h : p.fds = defFds) : ndFds p = ∅ := by
  apply Finset.ext
  intro a
  simp only [ndFds, mem_ndList, Finset.not_mem_empty, iff_false, not_exists]
  rintro i ⟨-, hnd, -⟩
  exact hnd (by rw [h]; rfl)

theorem ndFds_subset_pendList {p : MProc} :
    ∀ {l : List MProc}, p ∈ l → ndFds p ⊆ pendList l := by
  intro l
  induction l with
  | nil =>
    intro h
    cases h
  | cons q rest ih =>
    intro h
    rcases List.mem_cons.mp h with rfl | h2
    · exact Finset.subset_union_left
    · exact (ih h2).trans Finset.subset_union_right

theorem apply_carry_fds_ne (carry : Option Nat) (p : MProc) (i : Fin 3)
    (hi : i ≠ 0) : (apply_carry carry p).fds i = p.fds i := by
  cases carry with
  | none => rfl
  | some v =>
    show Function.update p.fds 0 v i = p.fds i
    exact Function.update_noteq hi v p.fds

/-- Installing the pending stdin descriptor into a still-default slot 0
adds exactly the carrySet to the non-default descriptors. -/
theorem ndFds_apply_carry (carry : Option Nat) (p : MProc) (h0 : p.fds 0 = 0) :
    ndFds (apply_carry carry p) = carrySet carry ∪ ndFds p := by
  cases carry with
  | none =>
    show ndFds p = ∅ ∪ ndFds p
    rw [Finset.empty_union]
  | some v =>
    by_cases hv : v = 0
    · subst hv
      have hupd : Function.update p.fds 0 0 = p.fds := by
        rw [show (0 : Nat) = p.fds 0 from h0.symm]
        exact Function.update_eq_self 0 p.fds
      show ndList (Function.update p.fds 0 0) (List.finRange 3) = _
      rw [hupd]
      show ndFds p = (if (0 : Nat) = 0 then ∅ else {0}) ∪ ndFds p
      rw [if_pos rfl, Finset.empty_union]
    · have : ndList (Function.update p.fds 0 v) (List.finRange 3)
          = insert v (ndList p.fds (List.finRange 3)) :=
        ndList_update (by simpa using h0) (by simpa using hv)
      show ndList (Function.update p.fds 0 v) (List.finRange 3) = _
      rw [this]
      show insert v (ndFds p) = (if v = 0 then ∅ else {v}) ∪ ndFds p
      rw [if_neg hv, Finset.insert_eq]

/-- The set computation of one pipeline step: opening fresh pipe ends r
and w, then closing w together with the process's own non-default
descriptors, leaves the standard descriptors, the read end r, and the
descriptors still pending for later processes. -/
theorem close_step_sets (C N P : Finset Nat) (r w : Nat)
    (hrw : r ≠ w) (hrC : r ∉ C) (hrN : r ∉ N)
    (hwstd : w ∉ ({0, 1, 2} : Finset Nat)) (hwC : w ∉ C) (hwN : w ∉ N)
    (hwP : w ∉ P)
    (hd : Disjoint (({0, 1, 2} : Finset Nat) ∪ ({r} ∪ P)) (C ∪ N)) :
    (insert r (insert w (({0, 1, 2} : Finset Nat) ∪ (C ∪ (N ∪ P)))))
        \ (insert w (C ∪ N))
      = {0, 1, 2} ∪ ({r} ∪ P) := by
  have hrB : r ∉ insert w (C ∪ N) := by
    simp only [Finset.mem_insert, Finset.mem_union]
    push_neg
    exact ⟨hrw, hrC, hrN⟩
  have hwA : w ∉ ({0, 1, 2} : Finset Nat) ∪ (C ∪ (N ∪ P)) := by
    simp only [Finset.mem_union]
    push_neg
    exact ⟨hwstd, hwC, hwN, hwP⟩
  rw [Finset.insert_sdiff_of_not_mem _ hrB, Finset.insert_sdiff_insert,
    Finset.sdiff_insert_of_not_mem hwA]
  have hA : ({0, 1, 2} : Finset Nat) ∪ (C ∪ (N ∪ P))
      = (({0, 1, 2} : Finset Nat) ∪ P) ∪ (C ∪ N) := by
    apply Finset.ext
    intro a
    simp only [Finset.mem_union]
    tauto
  have hsub : ({0, 1, 2} : Finset Nat) ∪ P ≤ ({0, 1, 2} : Finset Nat) ∪ ({r} ∪ P) :=
    Finset.union_subset_union_right Finset.subset_union_right
  rw [hA, Finset.union_sdiff_cancel_right (Disjoint.mono_left hsub hd)]
  apply Finset.ext
  intro a
  simp only [Finset.mem_union, Finset.mem_insert, Finset.mem_singleton]
  tauto

theorem mem_pendList {a : Nat} :
    ∀ {l : List MProc}, a ∈ pendList l ↔ ∃ p ∈ l, a ∈ ndFds p := by
  intro l
  induction l with
  | nil => simp [pendList]
  | cons p rest ih => simp [pendList, ih]

/-- Descriptor bookkeeping of the launch loop: starting from a shell
whose open descriptors are exactly 0,1,2 plus the pending stdin
assignment and the non-default descriptors of the remaining processes —
all fresh, mutually disjoint, at least 3 — a run that falls through with
code 0 leaves exactly descriptors 0,1,2 open. -/
theorem launch_loop_closes (sys : Sys) (table : List (String × Builtin))
    (bkg : Bool) :
    ∀ (ps : List MProc) (carry : Option Nat) (st st' : LState),
      st.openFds = {0, 1, 2} ∪ (carrySet carry ∪ pendList ps) →
      (∀ a ∈ carrySet carry ∪ pendList ps, 3 ≤ a ∧ a < st.nextFd) →
      3 ≤ st.nextFd →
      List.Pairwise (fun a b => Disjoint (ndFds a) (ndFds b)) ps →
      (∀ p ∈ ps, Disjoint (carrySet carry) (ndFds p)) →
      (∀ p rest2, ps = p :: rest2 → p.fds 0 = 0) →
      chainShape ps →
      (ps = [] → carrySet carry = ∅) →
      launch_loop sys table bkg carry ps st = (.ret 0, st') →
      st'.openFds = {0, 1, 2} := by
  intro ps
  induction ps with
  | nil =>
    intro carry st st' hops hbnd hnf hpw hcd hh hch hcn h
    simp only [launch_loop, Prod.mk.injEq] at h
    rw [← h.2, hops, hcn rfl]
    simp [pendList]
  | cons p rest ih =>
    intro carry st st' hops hbnd hnf hpw hcd hh hch hcn h
    have hp0 : p.fds 0 = 0 := hh p rest rfl
    cases rest with
    | nil =>
      cases hs : launch_one sys table bkg (apply_carry carry p) st with
      | ok st2 =>
        have heq : launch_loop sys table bkg carry [p] st = (.ret 0, st2) := by
          simp only [launch_loop]
          rw [hs]
        rw [heq] at h
        simp only [Prod.mk.injEq] at h
        obtain ⟨p', -, -, -, -, hofd, -⟩ := launch_one_ok_spec _ _ _ _ _ _ hs
        rw [← h.2, hofd, ndFds_apply_carry carry p hp0, hops]
        have hpl : carrySet carry ∪ pendList [p]
            = carrySet carry ∪ ndFds p := by
          simp [pendList]
        rw [hpl, Finset.union_sdiff_right]
        refine Finset.sdiff_eq_self_iff_disjoint.mpr (std3_disjoint ?_)
        intro a ha
        exact (hbnd a (by rw [hpl]; exact ha)).1
      | forkFailed st2 =>
        have heq : launch_loop sys table bkg carry [p] st
            = (.ret M_FAILED_EXEC, st2) := by
          simp only [launch_loop]
          rw [hs]
        rw [heq] at h
        simp only [Prod.mk.injEq, LaunchOut.ret.injEq] at h
        exact absurd h.1 (by decide)
      | shellExited st2 =>
        have heq : launch_loop sys table bkg carry [p] st = (.exited, st2) := by
          simp only [launch_loop]
          rw [hs]
        rw [heq] at h
        simp only [Prod.mk.injEq] at h
        exact LaunchOut.noConfusion h.1
    | cons q rest2 =>
      obtain ⟨hp1, hp2, hq0, hcht⟩ := hch
      have hband : ∀ a ∈ carrySet carry ∪ (ndFds p ∪ pendList (q :: rest2)),
          3 ≤ a ∧ a < st.nextFd := hbnd
      obtain ⟨hpwh, hpwt⟩ := List.pairwise_cons.mp hpw
      cases hs : launch_one sys table bkg
          { apply_carry carry p with
            fds := Function.update (apply_carry carry p).fds 1 (pipe_call st).1.2 }
          (pipe_call st).2 with
      | ok st2 =>
        have heq : launch_loop sys table bkg carry (p :: q :: rest2) st
            = launch_loop sys table bkg (some (pipe_call st).1.1) (q :: rest2) st2 := by
          simp only [launch_loop]
          rw [hs]
        rw [heq] at h
        obtain ⟨p', -, -, -, hnfd, hofd, -⟩ := launch_one_ok_spec _ _ _ _ _ _ hs
        have hac1 : (apply_carry carry p).fds 1 = 1 := by
          rw [apply_carry_fds_ne carry p 1 (by decide)]
          exact hp1
        have hnd2 : ndFds { apply_carry carry p with
              fds := Function.update (apply_carry carry p).fds 1 (pipe_call st).1.2 }
            = insert (st.nextFd + 1) (carrySet carry ∪ ndFds p) := by
          have hu := @ndList_update (apply_carry carry p).fds 1 (st.nextFd + 1)
            (by simpa using hac1) (by omega)
          show ndList (Function.update (apply_carry carry p).fds 1 (st.nextFd + 1))
              (List.finRange 3) = _
          rw [hu]
          rw [show ndList (apply_carry carry p).fds (List.finRange 3)
              = ndFds (apply_carry carry p) from rfl]
          rw [ndFds_apply_carry carry p hp0]
        have hpo : (pipe_call st).2.openFds
            = insert st.nextFd (insert (st.nextFd + 1) st.openFds) := rfl
        have hnC : ∀ a ∈ carrySet carry, a < st.nextFd := fun a ha =>
          (hband a (Finset.mem_union_left _ ha)).2
        have hnN : ∀ a ∈ ndFds p, a < st.nextFd := fun a ha =>
          (hband a (Finset.mem_union_right _ (Finset.mem_union_left _ ha))).2
        have hnP : ∀ a ∈ pendList (q :: rest2), a < st.nextFd := fun a ha =>
          (hband a (Finset.mem_union_right _ (Finset.mem_union_right _ ha))).2
        have hgeC : ∀ a ∈ carrySet carry, 3 ≤ a := fun a ha =>
          (hband a (Finset.mem_union_left _ ha)).1
        have hgeN : ∀ a ∈ ndFds p, 3 ≤ a := fun a ha =>
          (hband a (Finset.mem_union_right _ (Finset.mem_union_left _ ha))).1
        have hgeP : ∀ a ∈ pendList (q :: rest2), 3 ≤ a := fun a ha =>
          (hband a (Finset.mem_union_right _ (Finset.mem_union_right _ ha))).1
        have hst2 : st2.openFds
            = {0, 1, 2} ∪ ({st.nextFd} ∪ pendList (q :: rest2)) := by
          rw [hofd, hnd2, hpo, hops]
          show insert st.nextFd (insert (st.nextFd + 1)
              ({0, 1, 2} ∪ (carrySet carry ∪ (ndFds p ∪ pendList (q :: rest2)))))
              \ insert (st.nextFd + 1) (carrySet carry ∪ ndFds p) = _
          refine close_step_sets (carrySet carry) (ndFds p)
            (pendList (q :: rest2)) st.nextFd (st.nextFd + 1)
            (by omega)
            (fun hc => by have := hnC _ hc; omega)
            (fun hc => by have := hnN _ hc; omega)
            (by
              simp only [Finset.mem_insert, Finset.mem_singleton]
              push_neg
              omega)
            (fun hc => by have := hnC _ hc; omega)
            (fun hc => by have := hnN _ hc; omega)
            (fun hc => by have := hnP _ hc; omega)
            ?_
          rw [Finset.disjoint_left]
          intro a ha hcn2
          have ha3 : 3 ≤ a := by
            rcases Finset.mem_union.mp hcn2 with hc | hc
            · exact hgeC a hc
            · exact hgeN a hc
          rcases Finset.mem_union.mp ha with hstd | hrp
          · simp only [Finset.mem_insert, Finset.mem_singleton] at hstd
            omega
          · rcases Finset.mem_union.mp hrp with hr | hP
            · have har : a = st.nextFd := Finset.mem_singleton.mp hr
              rcases Finset.mem_union.mp hcn2 with hc | hc
              · have := hnC a hc
                omega
              · have := hnN a hc
                omega
            · rcases Finset.mem_union.mp hcn2 with hc | hc
              · obtain ⟨pp, hpp, happ⟩ := mem_pendList.mp hP
                exact absurd happ
                  (Finset.disjoint_left.mp (hcd pp (List.mem_cons_of_mem p hpp)) hc)
              · obtain ⟨pp, hpp, happ⟩ := mem_pendList.mp hP
                exact absurd happ (Finset.disjoint_left.mp (hpwh pp hpp) hc)
        have hnf2 : st2.nextFd = st.nextFd + 2 := by
          rw [hnfd]
          rfl
        have hcs : carrySet (some (pipe_call st).1.1) = {st.nextFd} := by
          show carrySet (some st.nextFd) = {st.nextFd}
          simp only [carrySet]
          rw [if_neg (by omega)]
        refine ih (some (pipe_call st).1.1) st2 st' ?_ ?_ ?_ hpwt ?_ ?_ hcht
          (fun hc => absurd hc (List.cons_ne_nil q rest2)) h
        · rw [hcs]
          exact hst2
        · intro a ha
          rw [hcs] at ha
          rw [hnf2]
          rcases Finset.mem_union.mp ha with hr | hP2
          · rw [Finset.mem_singleton.mp hr]
            exact ⟨hnf, by omega⟩
          · refine ⟨hgeP a hP2, ?_⟩
            have := hnP a hP2
            omega
        · rw [hnf2]
          omega
        · intro b hb
          rw [hcs, Finset.disjoint_singleton_left]
          intro hcnt
          have := hnP _ (mem_pendList.mpr ⟨b, hb, hcnt⟩)
          omega
        · intro pq rest3 heq2
          injection heq2 with h1 h2
          rw [← h1]
          exact hq0
      | forkFailed st2 =>
        have heq : launch_loop sys table bkg carry (p :: q :: rest2) st
            = (.ret M_FAILED_EXEC, st2) := by
          simp only [launch_loop]
          rw [hs]
        rw [heq] at h
        simp only [Prod.mk.injEq, LaunchOut.ret.injEq] at h
        exact absurd h.1 (by decide)
      | shellExited st2 =>
        have heq : launch_loop sys table bkg carry (p :: q :: rest2) st
            = (.exited, st2) := by
          simp only [launch_loop]
          rw [hs]
        rw [heq] at h
        simp only [Prod.mk.injEq] at h
        exact LaunchOut.noConfusion h.1

theorem ndList_three (arr : Fin 3 → Nat) :
    ndList arr (List.finRange 3)
      = (if arr 0 ≠ 0 then {arr 0} else ∅)
        ∪ ((if arr 1 ≠ 1 then {arr 1} else ∅)
            ∪ (if arr 2 ≠ 2 then {arr 2} else ∅)) := by
  apply Finset.ext
  intro a
  simp only [mem_ndList, Finset.mem_union]
  constructor
  · rintro ⟨i, -, hnd, ha⟩
    fin_cases i
    · refine Or.inl ?_
      rw [if_pos (by simpa using hnd)]
      simp [← ha]
    · refine Or.inr (Or.inl ?_)
      rw [if_pos (by simpa using hnd)]
      simp [← ha]
    · refine Or.inr (Or.inr ?_)
      rw [if_pos (by simpa using hnd)]
      simp [← ha]
  · intro h
    rcases h with h | h | h
    · by_cases hc : arr 0 ≠ 0
      · rw [if_pos hc] at h
        exact ⟨0, List.mem_finRange 0, by simpa using hc,
          (Finset.mem_singleton.mp h).symm⟩
      · rw [if_neg hc] at h
        exact absurd h (Finset.not_mem_empty a)
    · by_cases hc : arr 1 ≠ 1
      · rw [if_pos hc] at h
        exact ⟨1, List.mem_finRange 1, by simpa using hc,
          (Finset.mem_singleton.mp h).symm⟩
      · rw [if_neg hc] at h
        exact absurd h (Finset.not_mem_empty a)
    · by_cases hc : arr 2 ≠ 2
      · rw [if_pos hc] at h
        exact ⟨2, List.mem_finRange 2, by simpa using hc,
          (Finset.mem_singleton.mp h).symm⟩
      · rw [if_neg hc] at h
        exact absurd h (Finset.not_mem_empty a)

theorem pend_set_last (io1 io2 : Nat) :
    ∀ (l : List MProc), (∀ p ∈ l, p.fds = defFds) → l ≠ [] →
      pendList (set_last_io io1 io2 l)
        = (if io1 ≠ 1 then {io1} else ∅) ∪ (if io2 ≠ 2 then {io2} else ∅) := by
  intro l
  induction l with
  | nil =>
    intro _ hne
    exact absurd rfl hne
  | cons p rest ih =>
    intro hdef hne
    cases rest with
    | nil =>
      have hp : p.fds = defFds := hdef p (List.mem_cons_self p [])
      show ndFds { p with
          fds := Function.update (Function.update p.fds 1 io1) 2 io2 } ∪ ∅ = _
      rw [Finset.union_empty]
      show ndList (Function.update (Function.update p.fds 1 io1) 2 io2)
          (List.finRange 3) = _
      rw [ndList_three]
      have h0 : Function.update (Function.update p.fds 1 io1) 2 io2 0 = 0 := by
        rw [Function.update_noteq (by decide), Function.update_noteq (by decide),
          hp]
        rfl
      have h1 : Function.update (Function.update p.fds 1 io1) 2 io2 1 = io1 := by
        rw [Function.update_noteq (by decide)]
        exact Function.update_same 1 io1 p.fds
      have h2 : Function.update (Function.update p.fds 1 io1) 2 io2 2 = io2 := by
        rw [Function.update_same]
      rw [h0, h1, h2, if_neg (by omega), Finset.empty_union]
    | cons q rest2 =>
      show ndFds p ∪ pendList (set_last_io io1 io2 (q :: rest2)) = _
      rw [ndFds_default (hdef p (List.mem_cons_self p _)), Finset.empty_union]
      exact ih (fun p2 h2 => hdef p2 (List.mem_cons_of_mem p h2))
        (List.cons_ne_nil q rest2)

theorem pairwise_set_last (io1 io2 : Nat) :
    ∀ (l : List MProc), (∀ p ∈ l, p.fds = defFds) →
      List.Pairwise (fun a b => Disjoint (ndFds a) (ndFds b))
        (set_last_io io1 io2 l) := by
  intro l
  induction l with
  | nil =>
    intro _
    exact List.Pairwise.nil
  | cons p rest ih =>
    intro hdef
    cases rest with
    | nil =>
      show List.Pairwise _ [_]
      simp
    | cons q rest2 =>
      show List.Pairwise _ (p :: set_last_io io1 io2 (q :: rest2))
      refine List.pairwise_cons.mpr ⟨?_, ih (fun p2 h2 =>
        hdef p2 (List.mem_cons_of_mem p h2))⟩
      intro b hb
      rw [ndFds_default (hdef p (List.mem_cons_self p _))]
      exact Finset.disjoint_empty_left _

theorem set_last_head_fd0 (io1 io2 : Nat) (p : MProc) (rest : List MProc) :
    ∀ p' rest', set_last_io io1 io2 (p :: rest) = p' :: rest' →
      p'.fds 0 = p.fds 0 := by
  cases rest with
  | nil =>
    intro p' rest' h
    simp only [set_last_io, List.cons.injEq] at h
    rw [← h.1]
    show Function.update (Function.update p.fds 1 io1) 2 io2 0 = p.fds 0
    rw [Function.update_noteq (by decide), Function.update_noteq (by decide)]
  | cons q rest2 =>
    intro p' rest' h
    simp only [set_last_io, List.cons.injEq] at h
    rw [← h.1]

theorem chain_set_last (io1 io2 : Nat) :
    ∀ (l : List MProc), (∀ p ∈ l, p.fds = defFds) →
      chainShape (set_last_io io1 io2 l) := by
  intro l
  induction l with
  | nil =>
    intro _
    exact trivial
  | cons p rest ih =>
    intro hdef
    cases rest with
    | nil => exact trivial
    | cons q rest2 =>
      have hp : p.fds = defFds := hdef p (List.mem_cons_self p _)
      have hqd : q.fds = defFds := hdef q (List.mem_cons_of_mem p (List.mem_cons_self q _))
      cases rest2 with
      | nil =>
        show p.fds 1 = 1 ∧ p.fds 2 = 2 ∧
          Function.update (Function.update q.fds 1 io1) 2 io2 0 = 0 ∧ True
        refine ⟨by rw [hp]; rfl, by rw [hp]; rfl, ?_, trivial⟩
        rw [Function.update_noteq (by decide), Function.update_noteq (by decide),
          hqd]
        rfl
      | cons r2 rest3 =>
        show p.fds 1 = 1 ∧ p.fds 2 = 2 ∧ q.fds 0 = 0 ∧ _
        refine ⟨by rw [hp]; rfl, by rw [hp]; rfl, by rw [hqd]; rfl, ?_⟩
        exact ih (fun p2 h2 => hdef p2 (List.mem_cons_of_mem p h2))

/-- C8: launching a job whose processes carry fresh default fd tables
and succeeding leaves no descriptor outside 0,1,2 open in the shell:
after each process is launched, every descriptor of its table differing
from its slot index is closed, so pipes and redirection descriptors never
leak into the shell's own descriptor space. -/
theorem claim_C8_no_descriptor_leak (sys : Sys)
    (table : List (String × Builtin)) (j : Job) (w : World)
    (hfds : ∀ p ∈ j.procs, p.fds = defFds) (hne : j.procs ≠ [])
    (h : (launch_job sys table j w).1 = .ret 0) :
    (launch_job sys table j w).2.openFds = {0, 1, 2} := by
  obtain ⟨io_fd, st1, st2, hopen, hloop, -, -, -, -, -, hofd⟩ :=
    launch_job_success_decomp sys table j w hne h
  obtain ⟨ho1, ho2, ho3, hinj, -, -, -, -, -, -, -⟩ :=
    (open_io_fds_entry_spec sys j w).2 io_fd st1 hopen
  have hcs : carrySet (some (io_fd 0)) = (if io_fd 0 ≠ 0 then {io_fd 0} else ∅) := by
    show (if io_fd 0 = 0 then ∅ else {io_fd 0}) = _
    by_cases hc : io_fd 0 = 0
    · rw [if_pos hc, if_neg (by omega)]
    · rw [if_neg hc, if_pos hc]
  have hpend : pendList (set_last_io (io_fd 1) (io_fd 2) j.procs)
      = (if io_fd 1 ≠ 1 then {io_fd 1} else ∅)
        ∪ (if io_fd 2 ≠ 2 then {io_fd 2} else ∅) :=
    pend_set_last (io_fd 1) (io_fd 2) j.procs hfds hne
  have hun : carrySet (some (io_fd 0))
        ∪ pendList (set_last_io (io_fd 1) (io_fd 2) j.procs)
      = ndList io_fd (List.finRange 3) := by
    rw [hcs, hpend, ndList_three]
  rw [hofd]
  refine launch_loop_closes sys table j.bkg
    (set_last_io (io_fd 1) (io_fd 2) j.procs) (some (io_fd 0)) st1 st2
    ?_ ?_ ho3 ?_ ?_ ?_ ?_ ?_ hloop
  · rw [hun]
    exact ho1
  · intro a ha
    rw [hun] at ha
    exact ho2 a ha
  · exact pairwise_set_last (io_fd 1) (io_fd 2) j.procs hfds
  · intro pp hpp
    rw [hcs]
    by_cases hc : io_fd 0 ≠ 0
    · rw [if_pos hc, Finset.disjoint_singleton_left]
      intro hmem
      have hsub := ndFds_subset_pendList hpp hmem
      rw [hpend] at hsub
      rcases Finset.mem_union.mp hsub with h1 | h1
      · by_cases hc1 : io_fd 1 ≠ 1
        · rw [if_pos hc1] at h1
          exact hinj 0 1 (by decide) (by simpa using hc) (by simpa using hc1)
            (Finset.mem_singleton.mp h1)
        · rw [if_neg hc1] at h1
          exact absurd h1 (Finset.not_mem_empty _)
      · by_cases hc2 : io_fd 2 ≠ 2
        · rw [if_pos hc2] at h1
          exact hinj 0 2 (by decide) (by simpa using hc) (by simpa using hc2)
            (Finset.mem_singleton.mp h1)
        · rw [if_neg hc2] at h1
          exact absurd h1 (Finset.not_mem_empty _)
    · rw [if_neg hc]
      exact Finset.disjoint_empty_left _
  · intro pp rest2 hps
    cases hjp : j.procs with
    | nil => exact absurd hjp hne
    | cons p0 ps0 =>
      rw [hjp] at hps
      have := set_last_head_fd0 (io_fd 1) (io_fd 2) p0 ps0 pp rest2 hps
      rw [this]
      rw [hfds p0 (by rw [hjp]; exact List.mem_cons_self p0 ps0)]
      rfl
  · exact chain_set_last (io_fd 1) (io_fd 2) j.procs hfds
  · intro hc
    have hlen : j.procs.length = 0 := by
      rw [← set_last_io_length (io_fd 1) (io_fd 2) j.procs, hc]
      rfl
    exact absurd (List.length_eq_zero.mp hlen) hne

/-- Witness for C8: the three-stage pipeline with a stdout redirection:
descriptors 3 (file), 4,5,6,7 (pipes) are all closed again. -/
theorem claim_C8_witness :
    (∀ p ∈ jobPipe3.procs, p.fds = defFds)
    ∧ (launch_job sysOK builtinTable jobPipe3 wWorld).1 = LaunchOut.ret 0
    ∧ (launch_job sysOK builtinTable jobPipe3 wWorld).2.openFds = {0, 1, 2} :=
  ⟨by decide, by decide,
   claim_C8_no_descriptor_leak sysOK builtinTable jobPipe3 wWorld (by decide)
     (List.cons_ne_nil _ _) (by decide)⟩

end Marcel
